import Mathlib

/-!
Verification of the scoring / optimization / image-placement core of the
openBlogRewriter repository against its natural-language specification.

The Python sources are shallowly embedded:
* Python `str` values are modelled as `String` / `List Char`;
* Python floats are modelled as exact rationals (`ℚ`), with `round(x, 2)`
  modelled as decimal round-half-to-even (`round2`);
* Python dicts returned by the analyzers are modelled as association lists
  `List (String × PVal)` in insertion order, so that `.get` of a missing key
  (as performed by `main.calculate_seo_score`) is observable;
* the regular-expression helpers used by the sources are implemented as
  deterministic scanners that follow the leftmost / greedy / lazy semantics
  of the concrete patterns appearing in the code.
-/

set_option maxHeartbeats 1000000
set_option maxRecDepth 2500

/-- Python whitespace class `\s` (ASCII part): space, tab, newline, carriage
return, vertical tab, form feed. -/
def pyIsSpace (c : Char) : Bool :=
  c == ' ' || c == '\t' || c == '\n' || c == '\r' || c == Char.ofNat 11 || c == Char.ofNat 12

/-- Python `str.strip()` on a character list. -/
def pyStrip (l : List Char) : List Char :=
  ((l.dropWhile pyIsSpace).reverse.dropWhile pyIsSpace).reverse

/-- The image placeholder token `[IMAGE]` used throughout the sources. -/
def imageMarker : List Char := "[IMAGE]".data

/-- Worker for `countSub`: `k` is the number of characters still to skip
because they belong to an already-counted occurrence. -/
def countSubGo (p : List Char) : List Char → ℕ → ℕ
  | [], _ => 0
  | _ :: cs, k + 1 => countSubGo p cs k
  | c :: cs, 0 =>
    if p.isPrefixOf (c :: cs) then 1 + countSubGo p cs (p.length - 1)
    else countSubGo p cs 0

/-- Number of non-overlapping occurrences of `p` in `s`, scanning left to
right: Python `s.count(p)` and `len(re.findall(re.escape(p), s))` for a
non-empty literal `p`. -/
def countSub (p s : List Char) : ℕ :=
  if p.isEmpty then 0 else countSubGo p s 0

/-- Worker for `removeAll`, same skip discipline as `countSubGo`. -/
def removeAllGo (p : List Char) : List Char → ℕ → List Char
  | [], _ => []
  | _ :: cs, k + 1 => removeAllGo p cs k
  | c :: cs, 0 =>
    if p.isPrefixOf (c :: cs) then removeAllGo p cs (p.length - 1)
    else c :: removeAllGo p cs 0

/-- Python `s.replace(p, '')` for a non-empty literal `p`: deletes the
non-overlapping occurrences found by a single left-to-right scan. -/
def removeAll (p s : List Char) : List Char :=
  if p.isEmpty then s else removeAllGo p s 0

/-- Python `p in s` substring test. -/
def hasSub (p s : List Char) : Bool :=
  s.tails.any (fun t => p.isPrefixOf t)

/-- Worker for `splitRuns`; the second argument is `some acc` while a piece is
being accumulated (reversed) and `none` while a separator run is skipped. -/
def splitRunsGo (cls : Char → Bool) : List Char → Option (List Char) → List (List Char)
  | [], some acc => [acc.reverse]
  | [], none => [[]]
  | c :: cs, some acc =>
    if cls c then acc.reverse :: splitRunsGo cls cs none
    else splitRunsGo cls cs (some (c :: acc))
  | c :: cs, none =>
    if cls c then splitRunsGo cls cs none
    else splitRunsGo cls cs (some [c])

/-- Python `re.split('[C]+', s)` for a character class `C`: pieces between
maximal runs of class characters, keeping empty edge pieces. -/
def splitRuns (cls : Char → Bool) (s : List Char) : List (List Char) :=
  splitRunsGo cls s (some [])

/-- Python `s.split()`: whitespace-delimited words, empties dropped. -/
def pyWords (s : List Char) : List (List Char) :=
  (splitRuns pyIsSpace s).filter (fun w => !w.isEmpty)

/-- Worker for `splitOnSub` with the skip discipline of `countSubGo`; the
accumulator holds the current piece reversed. -/
def splitOnSubGo (p : List Char) : List Char → ℕ → List Char → List (List Char)
  | [], _, acc => [acc.reverse]
  | _ :: cs, k + 1, acc => splitOnSubGo p cs k acc
  | c :: cs, 0, acc =>
    if p.isPrefixOf (c :: cs) then acc.reverse :: splitOnSubGo p cs (p.length - 1) []
    else splitOnSubGo p cs 0 (c :: acc)

/-- Python `s.split(p)` for a non-empty literal separator `p`. -/
def splitOnSub (p s : List Char) : List (List Char) :=
  if p.isEmpty then [s] else splitOnSubGo p s 0 []

/-- Decimal round-half-to-even to an integer, the rounding mode of Python's
`round` (`Rat.floor` is used rather than `⌊⌋` to keep the function
kernel-computable). -/
def rhe (q : ℚ) : ℤ :=
  if q - (q.floor : ℚ) < 1 / 2 then q.floor
  else if 1 / 2 < q - (q.floor : ℚ) then q.floor + 1
  else if q.floor % 2 = 0 then q.floor else q.floor + 1

/-- Python `round(x, 2)` modelled exactly on rationals. -/
def round2 (q : ℚ) : ℚ := (rhe (100 * q) : ℚ) / 100

/-- Model of a Python value as stored in the report dictionaries produced by
the analyzers (numbers, strings, booleans, lists, nested dicts). -/
inductive PVal where
  | num (q : ℚ)
  | str (s : String)
  | bool (b : Bool)
  | list (xs : List PVal)
  | dict (kvs : List (String × PVal))

/-- Python `d[k]` / `d.get(k)` on an insertion-ordered dict model. -/
def pyLookup (k : String) (d : List (String × PVal)) : Option PVal :=
  List.lookup k d

/-- Python `d.get(k, dflt)` where the call site uses the value as a number.
Every key actually present in the modelled reports holds a number. -/
def pyGetNum (d : List (String × PVal)) (k : String) (dflt : ℚ) : ℚ :=
  match pyLookup k d with
  | some (PVal.num q) => q
  | _ => dflt

/-- Python `d.get(k, {})` where the call site iterates over a nested dict. -/
def pyGetDict (d : List (String × PVal)) (k : String) : List (String × PVal) :=
  match pyLookup k d with
  | some (PVal.dict m) => m
  | _ => []

/-- Python `d.get('status') == 'bad'` on a sub-report dict. -/
def statusIsBad (d : List (String × PVal)) : Bool :=
  match pyLookup "status" d with
  | some (PVal.str s) => s == "bad"
  | _ => false

/-- Case-insensitive prefix test (models `re.IGNORECASE` matching of a
literal). -/
def ciPrefixOf : List Char → List Char → Bool
  | [], _ => true
  | _ :: _, [] => false
  | a :: p, b :: s => a.toLower == b.toLower && ciPrefixOf p s

/-- Index of the first occurrence of character `c`. -/
def findIdxChar (c : Char) : List Char → Option ℕ
  | [] => none
  | b :: l => if b == c then some 0 else (findIdxChar c l).map (· + 1)

/-- Either quote character, `"` or `'`. -/
def isQuote (c : Char) : Bool :=
  c == Char.ofNat 34 || c == Char.ofNat 39

/-- At this position: the attribute literal (e.g. `href=`), an opening quote,
and a closing quote further on — the `ATTR=["'][^"'>]*["']` part of the tag
patterns, checked inside a region that contains no `>`. -/
def attrValueAt (attr : List Char) (l : List Char) : Bool :=
  if ciPrefixOf attr l then
    match l.drop attr.length with
    | q :: rest => isQuote q && rest.any isQuote
    | [] => false
  else false

/-- Does the region contain `ATTR=["'][^"'>]*["']` at some position? -/
def regionHasAttr (attr : List Char) : List Char → Bool
  | [] => false
  | c :: cs => attrValueAt attr (c :: cs) || regionHasAttr attr cs

/-- Length of the match of `<TAG\s+[^>]*ATTR=["'][^"'>]*["'][^>]*>`
(`re.IGNORECASE`) starting at this position, if any.  Because every variable
part of the pattern excludes `>`, a match necessarily extends to the first
`>` after `<TAG` and the attribute part must occur before it. -/
def tagAttrMatchLen (tag attr : List Char) (s : List Char) : Option ℕ :=
  match s with
  | [] => none
  | c :: rest =>
    if c == '<' && ciPrefixOf tag rest then
      let afterTag := rest.drop tag.length
      if (afterTag.takeWhile pyIsSpace).isEmpty then none
      else
        match findIdxChar '>' afterTag with
        | none => none
        | some g =>
          if regionHasAttr attr (afterTag.take g) then some (1 + tag.length + g + 1)
          else none
    else none

/-- Worker for `scanCount`: `k` characters of an already-counted match remain
to be skipped. -/
def scanCountGo (f : List Char → Option ℕ) : List Char → ℕ → ℕ
  | [], _ => 0
  | _ :: cs, k + 1 => scanCountGo f cs k
  | c :: cs, 0 =>
    match f (c :: cs) with
    | some m => 1 + scanCountGo f cs (m - 1)
    | none => scanCountGo f cs 0

/-- Count of non-overlapping leftmost matches of a pattern whose match length
at a position is computed by `f` (always ≥ 1). -/
def scanCount (f : List Char → Option ℕ) (s : List Char) : ℕ :=
  scanCountGo f s 0

/-- Count of `<a\s+[^>]*href=["'][^"'>]*["'][^>]*>` matches
(`internal_links_count` in `SEOAnalyzer.analyze_content`). -/
def countLinkTags (s : List Char) : ℕ :=
  scanCount (tagAttrMatchLen "a".data "href=".data) s

/-- Count of `<img\s+[^>]*src=["'][^"'>]*["'][^>]*>` matches. -/
def countImgTags (s : List Char) : ℕ :=
  scanCount (tagAttrMatchLen "img".data "src=".data) s

/-- Position of `](` occurring before any newline (the lazy `.*?\]\(` step of
the Markdown image pattern). -/
def findBrParen : List Char → Option ℕ
  | [] => none
  | c :: cs =>
    if c == '\n' then none
    else if c == ']' && cs.head? == some '(' then some 0
    else (findBrParen cs).map (· + 1)

/-- Position of `)` occurring before any newline (the lazy `.*?\)` step). -/
def findParenStop : List Char → Option ℕ
  | [] => none
  | c :: cs =>
    if c == '\n' then none
    else if c == ')' then some 0
    else (findParenStop cs).map (· + 1)

/-- Length of the match of `!\[.*?\]\(.*?\)` starting at this position, if
any (`.` does not cross newlines since `re.DOTALL` is not used). -/
def mdImageMatchLen : List Char → Option ℕ
  | c :: d :: rest =>
    if c == '!' && d == '[' then
      match findBrParen rest with
      | none => none
      | some j =>
        match findParenStop (rest.drop (j + 2)) with
        | none => none
        | some k => some (2 + j + 2 + k + 1)
    else none
  | _ => none

/-- Count of Markdown image references `![...](...)`. -/
def countMdImages (s : List Char) : ℕ :=
  scanCount mdImageMatchLen s

/-- Index of the first case-insensitive occurrence of `p`. -/
def findCiSub (p : List Char) : List Char → Option ℕ
  | [] => none
  | c :: cs => if ciPrefixOf p (c :: cs) then some 0 else (findCiSub p cs).map (· + 1)

/-- Length of the match of `<hN[^>]*>.*?</hN>` (`re.IGNORECASE | re.DOTALL`)
starting at this position, if any: first `>` after the opening literal, then
the lazy body up to the first closing literal. -/
def hTagMatchLen (openTag closeTag : List Char) (s : List Char) : Option ℕ :=
  if ciPrefixOf openTag s then
    match findIdxChar '>' (s.drop openTag.length) with
    | none => none
    | some g =>
      match findCiSub closeTag ((s.drop openTag.length).drop (g + 1)) with
      | none => none
      | some j => some (openTag.length + g + 1 + j + closeTag.length)
  else none

/-- Count of `<h2...>...</h2>` blocks. -/
def countH2 (s : List Char) : ℕ :=
  scanCount (hTagMatchLen "<h2".data "</h2>".data) s

/-- Count of `<h3...>...</h3>` blocks. -/
def countH3 (s : List Char) : ℕ :=
  scanCount (hTagMatchLen "<h3".data "</h3>".data) s

/-- Case-insensitive non-overlapping occurrence count,
`len(re.findall(re.escape(p), s, re.IGNORECASE))`. -/
def countSubCI (p s : List Char) : ℕ :=
  countSub (p.map Char.toLower) (s.map Char.toLower)

/-- Configuration of `SEOAnalyzer.__init__` with its default values. -/
structure SEOCfg where
  min_word_count : ℕ := 800
  keyword_density : ℚ := 0.02
  meta_description_length : ℕ := 160
  title_max_length : ℕ := 60
  min_internal_links : ℕ := 2
  min_images : ℕ := 1
  min_h2_tags : ℕ := 2
  min_h3_tags : ℕ := 3

/-- The analyzer built from an empty configuration dict. -/
def defaultSEOCfg : SEOCfg := {}

/-- Keyword preprocessing for a comma-separated keyword string:
`[kw.strip() for kw in keywords.split(',')]`. -/
def keywordsOfString (s : String) : List String :=
  (splitOnSub ",".data s.data).map (fun w => String.mk (pyStrip w))

/-- Model of `SEOAnalyzer.analyze_content`.  Note that `word_count` is
`len(content)` in the source — the number of characters, not of words — and
that no `score` key is ever placed in the report. -/
def analyze_content (cfg : SEOCfg) (content : String) (keywords : List String) :
    List (String × PVal) :=
  if content = "" then
    [("status", PVal.str "error"), ("message", PVal.str "Content is empty")]
  else
    let cl := content.data
    let word_count : ℕ := content.length
    let kdr : List (String × PVal) :=
      (keywords.filter (fun kw => kw ≠ "")).map (fun kw =>
        let count := countSubCI kw.data cl
        let density : ℚ := if 0 < word_count then (count : ℚ) / word_count else 0
        (kw, PVal.dict
          [("count", PVal.num count),
           ("density", PVal.num density),
           ("status", PVal.str
             (if cfg.keyword_density * 0.5 ≤ density ∧ density ≤ cfg.keyword_density * 1.5
              then "good" else "bad"))]))
    let internal_links_count := countLinkTags cl
    let total_images_count := countImgTags cl + countMdImages cl + countSub imageMarker cl
    let h2_tags_count := countH2 cl
    let h3_tags_count := countH3 cl
    [("status", PVal.str "success"),
     ("word_count", PVal.num word_count),
     ("word_count_status", PVal.str (if cfg.min_word_count ≤ word_count then "good" else "bad")),
     ("keyword_density", PVal.dict kdr),
     ("internal_links", PVal.dict
       [("count", PVal.num internal_links_count),
        ("status", PVal.str (if cfg.min_internal_links ≤ internal_links_count then "good" else "bad"))]),
     ("images", PVal.dict
       [("count", PVal.num total_images_count),
        ("status", PVal.str (if cfg.min_images ≤ total_images_count then "good" else "bad"))]),
     ("h2_tags", PVal.dict
       [("count", PVal.num h2_tags_count),
        ("status", PVal.str (if cfg.min_h2_tags ≤ h2_tags_count then "good" else "bad"))]),
     ("h3_tags", PVal.dict
       [("count", PVal.num h3_tags_count),
        ("status", PVal.str (if cfg.min_h3_tags ≤ h3_tags_count then "good" else "bad"))])]

/-- Model of `SEOAnalyzer.analyze_title`. -/
def analyze_title (cfg : SEOCfg) (title : String) : List (String × PVal) :=
  if title = "" then
    [("status", PVal.str "error"), ("message", PVal.str "Title is empty")]
  else
    [("status", PVal.str "success"),
     ("title_length", PVal.num title.length),
     ("title_length_status", PVal.str (if title.length ≤ cfg.title_max_length then "good" else "bad"))]

/-- Model of `SEOAnalyzer.analyze_meta_description`. -/
def analyze_meta_description (cfg : SEOCfg) (description : String) : List (String × PVal) :=
  if description = "" then
    [("status", PVal.str "error"), ("message", PVal.str "Description is empty")]
  else
    [("status", PVal.str "success"),
     ("description_length", PVal.num description.length),
     ("description_length_status", PVal.str
       (if description.length ≤ cfg.meta_description_length then "good" else "bad"))]

/-- Rendering of a report number inside an f-string (the interpolated values
are integers in all reports the analyzers produce). -/
def ratStr (q : ℚ) : String :=
  if q.den = 1 then toString q.num else toString q.num ++ "/" ++ toString q.den

/-- Python `f"{q:.2%}"` on the exact rational model: percent with two decimal
digits, rounded half-to-even. -/
def pctStr (q : ℚ) : String :=
  let h := rhe (10000 * q)
  toString (h / 100) ++ "." ++
    (if h % 100 < 10 then "0" ++ toString (h % 100) else toString (h % 100)) ++ "%"

/-- Python `bool(d.get(k, False))` for the `has_keyword` lookups. -/
def pyGetBool (d : List (String × PVal)) (k : String) : Bool :=
  match pyLookup k d with
  | some (PVal.bool b) => b
  | _ => false

/-- Result dict of `SEOAnalyzer.get_seo_suggestions`, whose keys are the
fixed literals `content`, `title`, `description`. -/
structure SeoSuggestions where
  content : List String
  title : List String
  description : List String

/-- Per-keyword density suggestions from the `keyword_density` sub-dict. -/
def kdSuggestions (cfg : SEOCfg) (kdd : List (String × PVal)) : List String :=
  kdd.flatMap (fun kv =>
    let kw := kv.1
    let d := match kv.2 with | PVal.dict m => m | _ => []
    let density := pyGetNum d "density" 0
    if density < cfg.keyword_density * 0.5 then
      ["Keyword '" ++ kw ++ "' density is too low (" ++ pctStr density ++
       "), consider increasing frequency"]
    else if cfg.keyword_density * 1.5 < density then
      ["Keyword '" ++ kw ++ "' density is too high (" ++ pctStr density ++
       "), consider reducing frequency"]
    else [])

/-- Model of `SEOAnalyzer.get_seo_suggestions`.  All lookups use `.get` with
defaults, so keys that the analyzers never produce (e.g. `readability_score`,
`paragraph_count`, `has_keyword`) fall back to `0` / `False`. -/
def get_seo_suggestions (cfg : SEOCfg) (ca ta da : List (String × PVal)) : SeoSuggestions :=
  let contentSugs :=
    kdSuggestions cfg (pyGetDict ca "keyword_density") ++
    (if pyGetNum ca "readability_score" 0 < 60 then
      ["Low readability score, consider simplifying sentence structure and using more common language"]
     else []) ++
    (if 25 < pyGetNum ca "avg_sentence_length" 0 then
      ["Average sentence length is too long (" ++ ratStr (pyGetNum ca "avg_sentence_length" 0) ++
       " words), consider shortening sentences"]
     else []) ++
    (if pyGetNum ca "paragraph_count" 0 < 5 then
      ["Too few paragraphs, consider adding more paragraphs to improve readability"]
     else []) ++
    (if statusIsBad (pyGetDict ca "internal_links") then
      ["Too few internal links (" ++ ratStr (pyGetNum (pyGetDict ca "internal_links") "count" 0) ++
       "), consider adding at least " ++ toString cfg.min_internal_links ++
       " internal links to improve SEO"]
     else []) ++
    (if statusIsBad (pyGetDict ca "images") then
      ["Too few images (" ++ ratStr (pyGetNum (pyGetDict ca "images") "count" 0) ++
       "), consider adding at least " ++ toString cfg.min_images ++
       " images with alt text to improve SEO"]
     else []) ++
    (if statusIsBad (pyGetDict ca "h2_tags") then
      ["Too few H2 headings (" ++ ratStr (pyGetNum (pyGetDict ca "h2_tags") "count" 0) ++
       "), consider adding at least " ++ toString cfg.min_h2_tags ++
       " H2 headings to improve structure and SEO"]
     else []) ++
    (if statusIsBad (pyGetDict ca "h3_tags") then
      ["Too few H3 headings (" ++ ratStr (pyGetNum (pyGetDict ca "h3_tags") "count" 0) ++
       "), consider adding at least " ++ toString cfg.min_h3_tags ++
       " H3 headings to improve structure and SEO"]
     else [])
  let titleSugs :=
    (if (cfg.title_max_length : ℚ) < pyGetNum ta "title_length" 0 then
      ["Title is too long (" ++ ratStr (pyGetNum ta "title_length" 0) ++
       " characters), consider shortening to " ++ toString cfg.title_max_length ++
       " characters or less"]
     else if pyGetNum ta "title_length" 0 < 30 then
      ["Title is too short (" ++ ratStr (pyGetNum ta "title_length" 0) ++
       " characters), consider extending to 30-" ++ toString cfg.title_max_length ++ " characters"]
     else []) ++
    (if pyGetBool ta "has_keyword" then []
     else ["Title does not contain keywords, consider adding main keywords"])
  let descSugs :=
    (if (cfg.meta_description_length : ℚ) < pyGetNum da "description_length" 0 then
      ["Description is too long (" ++ ratStr (pyGetNum da "description_length" 0) ++
       " characters), consider shortening to " ++ toString cfg.meta_description_length ++
       " characters or less"]
     else if pyGetNum da "description_length" 0 < 70 then
      ["Description is too short (" ++ ratStr (pyGetNum da "description_length" 0) ++
       " characters), consider extending to 70-" ++ toString cfg.meta_description_length ++
       " characters"]
     else []) ++
    (if pyGetBool da "has_keyword" then []
     else ["Description does not contain keywords, consider adding main keywords"])
  ⟨contentSugs, titleSugs, descSugs⟩

/-- ASCII approximation of the regex word class `\w`. -/
def isWordChar (c : Char) : Bool :=
  c.isAlphanum || c == '_'

/-- Worker for `scanCaptures`, with the skip discipline of `scanCountGo`. -/
def scanCapturesGo (f : List Char → Option (ℕ × List Char)) : List Char → ℕ → List (List Char)
  | [], _ => []
  | _ :: cs, k + 1 => scanCapturesGo f cs k
  | c :: cs, 0 =>
    match f (c :: cs) with
    | some (m, cap) => cap :: scanCapturesGo f cs (m - 1)
    | none => scanCapturesGo f cs 0

/-- Captures of the non-overlapping leftmost matches of a one-group pattern
whose match length and capture at a position are computed by `f`. -/
def scanCaptures (f : List Char → Option (ℕ × List Char)) (s : List Char) : List (List Char) :=
  scanCapturesGo f s 0

/-- The `\s*([\w\s]+)` tail shared by the brand patterns: consumed length and
capture.  A whitespace-only capture is reported as no match, since the source
immediately discards such captures with its `len(brand) > 2` filter on the
stripped text. -/
def wsWordCapture (l : List Char) : Option (ℕ × List Char) :=
  let run := l.takeWhile (fun c => isWordChar c || pyIsSpace c)
  let cap := run.dropWhile pyIsSpace
  if cap.isEmpty then none else some (run.length, cap)

/-- Match of `©\s*([\w\s]+)` at this position. -/
def brandCopyrightMatch : List Char → Option (ℕ × List Char)
  | c :: rest =>
    if c == '©' then (wsWordCapture rest).map (fun p => (1 + p.1, p.2)) else none
  | [] => none

/-- Match of `版权所有\s*[©]?\s*([\w\s]+)` at this position. -/
def brandCjkMatch (s : List Char) : Option (ℕ × List Char) :=
  let lit := "版权所有".data
  if lit.isPrefixOf s then
    let t := s.drop lit.length
    let a1 := t.takeWhile pyIsSpace
    let t2 := t.drop a1.length
    let copt : ℕ := if t2.head? == some '©' then 1 else 0
    let t3 := t2.drop copt
    (wsWordCapture t3).map (fun p => (lit.length + a1.length + copt + p.1, p.2))
  else none

/-- Match of `LIT\s+([\w\s]+)` at this position, for the
`All rights reserved by` and `Powered by` patterns. -/
def brandLitWsMatch (lit : List Char) (s : List Char) : Option (ℕ × List Char) :=
  if lit.isPrefixOf s then
    let t := s.drop lit.length
    if t.head?.any pyIsSpace then
      (wsWordCapture t).map (fun p => (lit.length + p.1, p.2))
    else none
  else none

/-- Match of `([A-Z][\w]+\.com)` at this position: since `.` is not a word
character, the greedy `[\w]+` must end exactly where `.com` begins. -/
def brandDotComMatch : List Char → Option (ℕ × List Char)
  | c :: rest =>
    if c.isUpper then
      let w := rest.takeWhile isWordChar
      if !w.isEmpty && ".com".data.isPrefixOf (rest.drop w.length) then
        some (1 + w.length + 4, c :: (w ++ ".com".data))
      else none
    else none
  | [] => none

/-- Model of `ContentEvaluator._extract_potential_brands`: captures of the
five copyright patterns, stripped, kept when longer than 2 characters, and
deduplicated (`list(set(...))`; Python's set order is unspecified, the model
keeps first occurrences). -/
def extract_potential_brands (content : List Char) : List String :=
  let caps :=
    scanCaptures brandCopyrightMatch content ++
    scanCaptures brandCjkMatch content ++
    scanCaptures (brandLitWsMatch "All rights reserved by".data) content ++
    scanCaptures (brandLitWsMatch "Powered by".data) content ++
    scanCaptures brandDotComMatch content
  ((caps.map (fun b => String.mk (pyStrip b))).filter
    (fun b => (b != "") && decide (2 < b.length))).dedup

/-- Configuration of `ContentEvaluator.__init__` with its default values
(an unreadable config file yields the empty dict, hence these defaults). -/
structure QualityCfg where
  min_readability_score : ℚ := 60
  min_originality_score : ℚ := 70
  max_avg_sentence_length : ℚ := 25
  min_paragraph_count : ℕ := 5
  threshold : ℚ := 70
  forbidden_terms : List String := []
  detect_brand_names : Bool := true

/-- The evaluator built from an empty configuration dict. -/
def defaultQualityCfg : QualityCfg := {}

/-- Sentences as used by the evaluator: `re.split(r'[.!?]+', s)`, stripped,
empties dropped. -/
def pySentences (s : List Char) : List (List Char) :=
  ((splitRuns (fun c => c == '.' || c == '!' || c == '?') s).map pyStrip).filter
    (fun x => !x.isEmpty)

/-- Model of `ContentEvaluator._calculate_readability_score`. -/
def calc_readability (content : List Char) : ℚ :=
  let sentences := pySentences content
  if sentences.isEmpty then 0
  else
    let words := pyWords content
    if words.isEmpty then 0
    else
      let wc : ℚ := words.length
      let asl := wc / sentences.length
      let awl := (((words.map List.length).sum : ℕ) : ℚ) / wc
      round2 (max 0 (min 100 (206.835 - 1.015 * asl - 84.6 * awl)))

/-- Model of `ContentEvaluator._calculate_originality_score` for a non-empty
reference text.  The inner loop of the source tests a condition that does not
depend on its loop variable and breaks on success, so a content sentence is
counted as similar exactly when it is longer than 10 characters and occurs
verbatim in the reference text. -/
def calc_originality (content orig : List Char) : ℚ :=
  let cs := pySentences content
  let os' := pySentences orig
  if cs.isEmpty || os'.isEmpty then 0
  else
    let similar := (cs.filter (fun c => 10 < c.length && hasSub c orig)).length
    round2 (100 - ((similar : ℚ) / cs.length * 100))

/-- Model of `ContentEvaluator._calculate_avg_sentence_length`. -/
def calc_avg_sentence_length (content : List Char) : ℚ :=
  let sentences := pySentences content
  if sentences.isEmpty then 0
  else round2 (((pyWords content).length : ℚ) / sentences.length)

/-- Model of `ContentEvaluator._count_paragraphs`: blocks split on the exact
separator `\n\n` with non-blank content, plus one unit per `[IMAGE]` tag. -/
def count_paragraphs (content : List Char) : ℕ :=
  (((splitOnSub "\n\n".data content).map pyStrip).filter (fun p => !p.isEmpty)).length +
    countSub imageMarker content

/-- Model of `ContentEvaluator._detect_copyright_issues`: forbidden-term hits
plus, when a reference text is given and brand detection is on, brand names
extracted from the reference that reappear in the content. -/
def detect_copyright_issues (cfg : QualityCfg) (content : String) (orig : Option String) :
    Bool × List String :=
  if content = "" then (false, [])
  else
    let contentLow := content.data.map Char.toLower
    let hits := cfg.forbidden_terms.filter (fun term => hasSub (term.data.map Char.toLower) contentLow)
    let msgs := hits.map (fun term => "内容中包含禁用词汇 '" ++ term ++ "'，请移除或替换")
    let brandPart : List String :=
      match orig with
      | some o =>
        if (o != "") && cfg.detect_brand_names then
          (extract_potential_brands o.data).filter
            (fun b => hasSub (b.data.map Char.toLower) contentLow)
        else []
      | none => []
    let brandMsgs := brandPart.map
      (fun b => "内容中包含原网站品牌名称 '" ++ b ++ "'，请移除或替换以避免版权纠纷")
    (!hits.isEmpty || !brandPart.isEmpty, msgs ++ brandMsgs)

/-- The `readability_factor` local of
`ContentEvaluator._calculate_quality_score` (weight 30). -/
def readability_factor (cfg : QualityCfg) (rs : ℚ) : ℚ :=
  if cfg.min_readability_score ≤ rs then 30 else 30 * (rs / cfg.min_readability_score)

/-- The `originality_factor` local (weight 30). -/
def originality_factor (cfg : QualityCfg) (os : ℚ) : ℚ :=
  if cfg.min_originality_score ≤ os then 30 else 30 * (os / cfg.min_originality_score)

/-- The `sentence_length_factor` local (weight 25). -/
def sentence_length_factor (cfg : QualityCfg) (asl : ℚ) : ℚ :=
  if asl ≤ cfg.max_avg_sentence_length then 25 else 25 * (cfg.max_avg_sentence_length / asl)

/-- The `paragraph_factor` local (weight 15). -/
def paragraph_factor (cfg : QualityCfg) (pc : ℕ) : ℚ :=
  if cfg.min_paragraph_count ≤ pc then 15
  else 15 * ((pc : ℚ) / (cfg.min_paragraph_count : ℚ))

/-- The `multimedia_bonus` local: one point per `[IMAGE]` tag, at most 5. -/
def multimedia_bonus (content : String) : ℚ :=
  min 5 ((countSub imageMarker content.data : ℚ) * 1)

/-- Model of `ContentEvaluator._calculate_quality_score`: readability 30%,
originality 30%, sentence-length 25%, paragraph-count 15%, each scaled down
proportionally below/above its threshold, plus a bonus of 1 point per
`[IMAGE]` tag capped at 5, the total capped at 100 and rounded. -/
def calculate_quality_score (cfg : QualityCfg) (rs os asl : ℚ) (pc : ℕ) (content : String) : ℚ :=
  let total := readability_factor cfg rs + originality_factor cfg os +
    sentence_length_factor cfg asl + paragraph_factor cfg pc
  let total2 :=
    if hasSub imageMarker content.data then total + multimedia_bonus content
    else total
  round2 (min 100 total2)

/-- Model of `ContentEvaluator._get_quality_suggestions`. -/
def get_quality_suggestions (cfg : QualityCfg) (rs os asl : ℚ) (pc : ℕ) : List String :=
  (if rs < cfg.min_readability_score then
    ["可读性分数较低 (" ++ ratStr rs ++ ")，建议简化句子结构，使用更通俗的语言"]
   else []) ++
  (if os < cfg.min_originality_score then
    ["原创性分数较低 (" ++ ratStr os ++ ")，建议使用更多原创表达，避免与原文过于相似"]
   else []) ++
  (if cfg.max_avg_sentence_length < asl then
    ["平均句子长度过长 (" ++ ratStr asl ++ ")，建议缩短句子，提高可读性"]
   else []) ++
  (if pc < cfg.min_paragraph_count then
    ["段落数量较少 (" ++ toString pc ++ ")，建议增加段落数量，提高文章结构性"]
   else [])

/-- Model of `ContentEvaluator.evaluate_content`.  Empty content yields the
error report with `score = 0` and `needs_rewrite = True`; otherwise the full
success report is assembled. -/
def evaluate_content (cfg : QualityCfg) (content : String) (orig : Option String) :
    List (String × PVal) :=
  if content = "" then
    [("status", PVal.str "error"),
     ("message", PVal.str "内容为空"),
     ("score", PVal.num 0),
     ("needs_rewrite", PVal.bool true)]
  else
    let rs := calc_readability content.data
    let os' :=
      match orig with
      | some o => if o = "" then (100 : ℚ) else calc_originality content.data o.data
      | none => 100
    let asl := calc_avg_sentence_length content.data
    let pc := count_paragraphs content.data
    let ci := detect_copyright_issues cfg content orig
    let qs := calculate_quality_score cfg rs os' asl pc content
    let needs := decide (qs < cfg.threshold) || ci.1
    let sugs := get_quality_suggestions cfg rs os' asl pc ++ (if ci.1 then ci.2 else [])
    [("status", PVal.str "success"),
     ("readability_score", PVal.num rs),
     ("originality_score", PVal.num os'),
     ("avg_sentence_length", PVal.num asl),
     ("paragraph_count", PVal.num pc),
     ("quality_score", PVal.num qs),
     ("copyright_issues", PVal.bool ci.1),
     ("needs_rewrite", PVal.bool needs),
     ("suggestions", PVal.list (sugs.map PVal.str))]

/-- Model of `main.calculate_seo_score`: `0.6/0.25/0.15`-weighted sum of the
`score` entries of the three analyzer reports, looked up with `.get('score',
0)`, rounded to two decimals.  The analyzer reports never contain a `score`
key. -/
def calculate_seo_score (ca ta da : List (String × PVal)) : ℚ :=
  round2 (pyGetNum ca "score" 0 * 0.6 + pyGetNum ta "score" 0 * 0.25 +
          pyGetNum da "score" 0 * 0.15)

/-- The `seo_analysis` dict assembled in `step2_rewrite_and_optimize_content`
and consumed by `calculate_combined_score` via its three fixed keys. -/
structure SeoAnalysisBundle where
  content_analysis : List (String × PVal)
  title_analysis : List (String × PVal)
  description_analysis : List (String × PVal)

/-- Model of `main.calculate_combined_score`: quality 60%, SEO 40%, rounded
to two decimals. -/
def calculate_combined_score (quality_result : List (String × PVal)) (sa : SeoAnalysisBundle) : ℚ :=
  round2 (pyGetNum quality_result "quality_score" 0 * 0.6 +
          calculate_seo_score sa.content_analysis sa.title_analysis sa.description_analysis * 0.4)

/-- Heading test `re.match(r'^#{1,6}\s+', para)` of
`ImageProcessor._split_markdown_blocks`. -/
def isHeadingBlock (b : List Char) : Bool :=
  let hs := b.takeWhile (fun c => c == '#')
  decide (1 ≤ hs.length) && decide (hs.length ≤ 6) && (b.drop hs.length).head?.any pyIsSpace

/-- List-start test `re.match(r'^[-*+]\s+|^\d+\.\s+', ...)`, also the
lookahead of the item-splitting regex. -/
def isListStartL (l : List Char) : Bool :=
  (match l with
   | c :: d :: _ => (c == '-' || c == '*' || c == '+') && pyIsSpace d
   | _ => false) ||
  (let ds := l.takeWhile Char.isDigit
   !ds.isEmpty &&
     (match l.drop ds.length with
      | c :: d :: _ => c == '.' && pyIsSpace d
      | _ => false))

/-- The triple-backtick code fence delimiter. -/
def codeFence : List Char := [Char.ofNat 96, Char.ofNat 96, Char.ofNat 96]

/-- Worker for `itemSplit`; splits at `\n(?=[-*+]\s+|\d+\.\s+)`, consuming
the newline and keeping the accumulated piece reversed. -/
def itemSplitGo : List Char → List Char → List (List Char)
  | [], acc => [acc.reverse]
  | c :: cs, acc =>
    if c == '\n' && isListStartL cs then acc.reverse :: itemSplitGo cs []
    else itemSplitGo cs (c :: acc)

/-- Model of `re.split(r'\n(?=[-*+]\s+|\d+\.\s+)', para)`. -/
def itemSplit (l : List Char) : List (List Char) :=
  itemSplitGo l []

/-- Index of the last newline in a list, if any. -/
def lastNlIdx : List Char → Option ℕ
  | [] => none
  | c :: cs =>
    match lastNlIdx cs with
    | some j => some (j + 1)
    | none => if c == '\n' then some 0 else none

/-- Worker for `splitBlank`: a greedy match of `\n\s*\n` at the current
position runs from the leading newline to the last newline of the maximal
whitespace run that follows it; `k` counts separator characters still to be
skipped, and the accumulator holds the current piece reversed. -/
def splitBlankGo : List Char → ℕ → List Char → List (List Char)
  | [], _, acc => [acc.reverse]
  | _ :: cs, k + 1, acc => splitBlankGo cs k acc
  | c :: cs, 0, acc =>
    if c == '\n' then
      match lastNlIdx (cs.takeWhile pyIsSpace) with
      | some j => acc.reverse :: splitBlankGo cs (j + 1) []
      | none => splitBlankGo cs 0 (c :: acc)
    else splitBlankGo cs 0 (c :: acc)

/-- Model of `re.split(r'\n\s*\n', content)`. -/
def splitBlank (s : List Char) : List (List Char) :=
  splitBlankGo s 0 []

/-- Blocks contributed by one raw paragraph in
`ImageProcessor._split_markdown_blocks`. -/
def blockOfPara (raw : List Char) : List (List Char) :=
  let para := pyStrip raw
  if para.isEmpty then []
  else if isHeadingBlock para then [para]
  else if isListStartL para then (itemSplit para).filter (fun item => !(pyStrip item).isEmpty)
  else if codeFence.isPrefixOf para && codeFence.isSuffixOf para then [para]
  else [para]

/-- Model of `ImageProcessor._split_markdown_blocks`. -/
def split_markdown_blocks (content : List Char) : List (List Char) :=
  (splitBlank content).flatMap blockOfPara

/-- Block eligibility in `redistribute_images`: not starting with `#` or a
code fence, and longer than 20 characters after stripping. -/
def suitableBlock (b : List Char) : Bool :=
  !("#".data.isPrefixOf b) && !(codeFence.isPrefixOf b) && decide (20 < (pyStrip b).length)

/-- The `suitable_positions` list of `redistribute_images`. -/
def suitable_positions (blocks : List (List Char)) : List ℕ :=
  (List.range blocks.length).filter (fun i => suitableBlock (blocks.getD i []))

/-- The fallback `if not suitable_positions: suitable_positions =
list(range(len(blocks)))`. -/
def choose_sp (blocks : List (List Char)) : List ℕ :=
  let sp := suitable_positions blocks
  if sp.isEmpty then List.range blocks.length else sp

/-- Insertion into a strictly sorted list, skipping duplicates: the effect of
`sorted(list(set(l + [a])))` on an already sorted duplicate-free `l`. -/
def sortedInsert (a : ℕ) : List ℕ → List ℕ
  | [] => [a]
  | b :: l => if a < b then a :: b :: l else if a = b then b :: l else b :: sortedInsert a l

/-- `sorted(list(set(l)))`. -/
def sortedDedup (l : List ℕ) : List ℕ :=
  l.foldr sortedInsert []

/-- The initial `image_positions` selection of `redistribute_images`: middle
element for one image, 1/3 and 2/3 for two, an evenly stepped selection
otherwise. -/
def initial_image_positions (sp : List ℕ) (n : ℕ) : List ℕ :=
  if n = 1 && !sp.isEmpty then [sp.getD (sp.length / 2) 0]
  else if n = 2 && decide (2 ≤ sp.length) then
    [sp.getD (sp.length / 3) 0, sp.getD (2 * sp.length / 3) 0]
  else if !sp.isEmpty then
    (List.range n).map (fun i => sp.getD (min (sp.length - 1) ((i + 1) * max 1 (sp.length / (n + 1)))) 0)
  else []

/-- The max-gap fold of the filling loop: starting from `(0, 0)`, each
adjacent pair with a strictly larger gap updates the insertion point to the
midpoint of that pair. -/
def maxGapFold : List (ℕ × ℕ) → ℕ × ℕ → ℕ × ℕ
  | [], st => st
  | (a, b) :: rest, (mg, ia) =>
    if b - a > mg then maxGapFold rest (b - a, (a + b) / 2) else maxGapFold rest (mg, ia)

/-- The `insert_at` computed by one iteration of the filling loop when at
least two positions are already chosen. -/
def maxGapInsertAt (pos : List ℕ) : ℕ :=
  (maxGapFold (pos.zip pos.tail) (0, 0)).2

/-- The position (if any) that one iteration of the
`while len(image_positions) < number_of_images and suitable_positions` loop
adds: the midpoint of the largest gap when two or more positions exist,
otherwise the first or last suitable position; `none` means the loop body
leaves `image_positions` unchanged — the Python loop then repeats the same
body forever. -/
def fillCandidate (sp pos : List ℕ) : Option ℕ :=
  if 2 ≤ pos.length then
    let ia := maxGapInsertAt pos
    if pos.contains ia then none else some ia
  else
    match sp.head?, sp.getLast? with
    | some h, some l =>
      if !pos.contains 0 && !pos.contains h then some h
      else if !pos.contains l then some l
      else none
    | _, _ => none

/-- The filling loop.  Each productive iteration grows `pos` by one element,
so `n + 1` units of fuel (as supplied by `redistribute_images`) are never
exhausted before the `len < n` test fails; `none` therefore means the source
loop makes no further progress and never terminates. -/
def fillLoopF (sp : List ℕ) (n : ℕ) : ℕ → List ℕ → Option (List ℕ)
  | 0, _ => none
  | fuel + 1, pos =>
    if pos.length < n && !sp.isEmpty then
      match fillCandidate sp pos with
      | none => none
      | some x => fillLoopF sp n fuel (sortedInsert x pos)
    else some pos

/-- Model of `ImageProcessor.redistribute_images`.  `none` models the case in
which the position-filling loop never terminates. -/
def redistribute_images (content : String) (n : ℕ) : Option String :=
  let cwi := removeAll imageMarker content.data
  let blocks := split_markdown_blocks cwi
  if blocks.isEmpty then some content
  else
    let sp := choose_sp blocks
    match fillLoopF sp n (n + 1) (sortedDedup (initial_image_positions sp n)) with
    | none => none
    | some pos1 =>
      let image_positions := pos1.take n
      let pieces := blocks.enum.flatMap
        (fun ib => if image_positions.contains ib.1 then [ib.2, imageMarker] else [ib.2])
      some (String.mk (List.intercalate "\n\n".data pieces))

/-- Outputs of the external model object as consumed by
`step2_rewrite_and_optimize_content`: the rewriting result per attempt and
the title / description / optimization results (the empty string models a
failed generation). -/
structure GenModel where
  rewriteOut : ℕ → String
  titleOut : String
  descOut : String
  optimizeOut : String

/-- Outcome of one call of `step2_rewrite_and_optimize_content`: the Python
function returns `None` when every rewrite attempt fails (`noDraft`), raises
`NameError` when it reaches the call of the undefined `clean_model_output`
(`crashed`), and otherwise returns a result dict whose content is recorded
here together with whether the extra optimization phase ran and the combined
score of the rewritten draft. -/
inductive Step2Out where
  | noDraft
  | crashed
  | ok (content : String) (optimizedPhase : Bool) (combined : ℚ)

/-- Thresholds and attempt budget of the orchestrator, with the defaults of
`main.py`. -/
structure OrchCfg where
  quality_threshold : ℚ := 70
  seo_threshold : ℚ := 80
  max_rewrite_attempts : ℕ := 3

/-- The acceptance threshold
`(quality_threshold * 0.6) + (seo_threshold * 0.4)`. -/
def combined_threshold (cfg : OrchCfg) : ℚ :=
  cfg.quality_threshold * 0.6 + cfg.seo_threshold * 0.4

/-- One iteration of the rewrite loop of
`step2_rewrite_and_optimize_content`, modelled for a session whose blog data
carries no scraped images (so all image branches are skipped): `none` models
`continue` after a failed rewrite, `some` a `return` from the loop body. -/
def step2_attempt (cfg : OrchCfg) (qcfg : QualityCfg) (scfg : SEOCfg) (m : GenModel)
    (orig : String) (kws : List String) (attempt : ℕ) : Option Step2Out :=
  let rewritten := m.rewriteOut attempt
  if rewritten = "" then none
  else
    let quality_result := evaluate_content qcfg rewritten (some orig)
    let ca := analyze_content scfg rewritten kws
    let ta := analyze_title scfg m.titleOut
    let da := analyze_meta_description scfg m.descOut
    let combined := calculate_combined_score quality_result ⟨ca, ta, da⟩
    if combined_threshold cfg ≤ combined then some (Step2Out.ok rewritten false combined)
    else
      let opt := m.optimizeOut
      let oc := if opt = "" then rewritten else opt
      if "Here's the optimized".data.isPrefixOf oc.data ||
         hasSub "I've optimized".data (oc.data.take 100) then
        some Step2Out.crashed
      else some (Step2Out.ok oc true combined)

/-- The rewrite loop (`for attempt in range(max_rewrite_attempts)`); returns
the outcome together with the number of rewrite calls performed.  Falling
out of the loop returns Python `None`, modelled as `noDraft`. -/
def step2_loop (cfg : OrchCfg) (qcfg : QualityCfg) (scfg : SEOCfg) (m : GenModel)
    (orig : String) (kws : List String) : ℕ → ℕ → Step2Out × ℕ
  | 0, _ => (Step2Out.noDraft, 0)
  | k + 1, i =>
    match step2_attempt cfg qcfg scfg m orig kws i with
    | some out => (out, 1)
    | none =>
      let r := step2_loop cfg qcfg scfg m orig kws k (i + 1)
      (r.1, r.2 + 1)

/-- Model of `step2_rewrite_and_optimize_content` (image-free session). -/
def step2_rewrite_and_optimize (cfg : OrchCfg) (qcfg : QualityCfg) (scfg : SEOCfg)
    (m : GenModel) (orig : String) (kws : List String) : Step2Out × ℕ :=
  step2_loop cfg qcfg scfg m orig kws cfg.max_rewrite_attempts 0

/-- The `if not rewrite_result: return False` guard of `main.process_blog`:
the whole run reports failure unless step 2 returned a result dict. -/
def process_blog_rewrite_ok : Step2Out → Bool
  | Step2Out.ok _ _ _ => true
  | _ => false

/-- Number of words of a text in the sense of the specification's wording for
C3/C4 (`the number of words in the text`): whitespace-delimited words.
Modelled from the spec for comparison with the source's `len(content)`. -/
def specWordCount (s : String) : ℕ :=
  (pyWords s.data).length

/-- Analyzer configuration used by the C1 counterexample: a small word-count
minimum so that the word-count check passes on a short text. -/
def c1cfg : SEOCfg := { min_word_count := 3 }

/-- The concrete model outputs used by the C8 witness. -/
def c8model : GenModel := ⟨fun _ => "Draft body text", "t", "d", "x"⟩

/-- The concrete 10-word draft whose quality score `71.74` has a hundredths
digit that makes `0.6 · quality` a three-decimal value. -/
def c8text : String := "aa aa aa aa aa aa aa aa aa aa"

/-- Quality report actually produced by the evaluator on `c8text`. -/
def c8quality : List (String × PVal) :=
  evaluate_content defaultQualityCfg c8text none

/-- The SEO bundle of concrete analyzer reports used by the C8
counterexample. -/
def c8bundle : SeoAnalysisBundle :=
  ⟨analyze_content defaultSEOCfg "draft" [], analyze_title defaultSEOCfg "t",
   analyze_meta_description defaultSEOCfg "d"⟩

/-- The generation model that fails (returns empty output) on every rewrite
call. -/
def c2model : GenModel := ⟨fun _ => "", "t", "d", "x"⟩

/-- The nine-block document of scenario C: one heading followed by eight
paragraphs longer than twenty characters. -/
def scenarioCDoc : String :=
  "# Heading One\n\nAlpha paragraph with enough characters.\n\nBeta paragraph with enough characters.\n\nGamma paragraph with enough characters.\n\nDelta paragraph with enough characters.\n\nEpsilon paragraph with enough chars.\n\nZeta paragraph with enough characters.\n\nEta paragraph with enough characters.\n\nTheta paragraph with enough characters."

/-- The block list of the scenario C document after marker removal. -/
def scenarioCBlocks : List (List Char) :=
  split_markdown_blocks (removeAll imageMarker scenarioCDoc.data)

/-- The single-paragraph document on which `redistribute_images` never
terminates for two images. -/
def divergentDoc : String := "This paragraph has more than twenty characters."

/-- An occurrence of `p` as a contiguous substring of `s`. -/
def OccSub (p s : List Char) : Prop := ∃ a b, s = a ++ p ++ b

/-- A two-paragraph text with no markers on which `redistribute_images`
terminates. -/
def c5text : String :=
  "First paragraph with enough characters here.\n\nSecond paragraph also has enough characters."

/-- The output of `redistribute_images c5text 1`. -/
def c5out : String :=
  "First paragraph with enough characters here.\n\nSecond paragraph also has enough characters.\n\n[IMAGE]"

theorem ratFloor_eq (q : ℚ) : q.floor = ⌊q⌋ := by
  rw [Rat.floor_def', ← Rat.floor_def]

theorem rhe_cases (q : ℚ) : rhe q = ⌊q⌋ ∨ (rhe q = ⌊q⌋ + 1 ∧ 1 / 2 ≤ q - ⌊q⌋) := by
  unfold rhe
  rw [ratFloor_eq]
  split_ifs with h1 h2 h3
  · exact Or.inl rfl
  · exact Or.inr ⟨rfl, le_of_lt h2⟩
  · exact Or.inl rfl
  · exact Or.inr ⟨rfl, le_of_not_lt h1⟩

theorem rhe_nonneg {q : ℚ} (h : 0 ≤ q) : 0 ≤ rhe q := by
  rcases rhe_cases q with h1 | ⟨h1, _⟩ <;> rw [h1]
  · exact Int.le_floor.mpr (by exact_mod_cast h)
  · have : (0 : ℤ) ≤ ⌊q⌋ := Int.le_floor.mpr (by exact_mod_cast h)
    omega

theorem rhe_le {q : ℚ} {B : ℤ} (h : q ≤ B) : rhe q ≤ B := by
  rcases rhe_cases q with h1 | ⟨h1, h2⟩ <;> rw [h1]
  · calc ⌊q⌋ ≤ ⌊(B : ℚ)⌋ := Int.floor_le_floor h
    _ = B := Int.floor_intCast B
  · have hf : (⌊q⌋ : ℚ) ≤ q - 1 / 2 := by
      have := Int.floor_le q
      linarith
    have hq : (⌊q⌋ : ℚ) < (B : ℚ) := by linarith
    have : ⌊q⌋ < B := by exact_mod_cast hq
    omega

theorem round2_nonneg {q : ℚ} (h : 0 ≤ q) : 0 ≤ round2 q := by
  unfold round2
  have : (0 : ℚ) ≤ (rhe (100 * q) : ℚ) := by
    exact_mod_cast rhe_nonneg (by linarith)
  positivity

theorem round2_le_100 {q : ℚ} (h : q ≤ 100) : round2 q ≤ 100 := by
  unfold round2
  have h1 : rhe (100 * q) ≤ (10000 : ℤ) := rhe_le (by push_cast; linarith)
  have h2 : (rhe (100 * q) : ℚ) ≤ 10000 := by exact_mod_cast h1
  linarith

/-- The content report never contains a `score` key (neither the error nor
the success dict of `analyze_content` inserts one). -/
theorem lookup_score_analyze_content (cfg : SEOCfg) (content : String) (kws : List String) :
    pyLookup "score" (analyze_content cfg content kws) = none := by
  unfold analyze_content
  split <;> rfl

/-- The title report never contains a `score` key. -/
theorem lookup_score_analyze_title (cfg : SEOCfg) (title : String) :
    pyLookup "score" (analyze_title cfg title) = none := by
  unfold analyze_title
  split <;> rfl

/-- The description report never contains a `score` key. -/
theorem lookup_score_analyze_meta_description (cfg : SEOCfg) (description : String) :
    pyLookup "score" (analyze_meta_description cfg description) = none := by
  unfold analyze_meta_description
  split <;> rfl

theorem round2_zero : round2 0 = 0 := by
  with_unfolding_all decide

theorem rhe_eq_floor_of_lt {q : ℚ} (h : q - (⌊q⌋ : ℚ) < 1 / 2) : rhe q = ⌊q⌋ := by
  unfold rhe
  rw [ratFloor_eq, if_pos h]

theorem rhe_intCast (n : ℤ) : rhe (n : ℚ) = n := by
  have h : ((n : ℚ) : ℚ) - (⌊(n : ℚ)⌋ : ℚ) < 1 / 2 := by
    rw [Int.floor_intCast]
    norm_num
  rw [rhe_eq_floor_of_lt h, Int.floor_intCast]

theorem round2_int_div100 (n : ℤ) : round2 ((n : ℚ) / 100) = (n : ℚ) / 100 := by
  unfold round2
  rw [show (100 : ℚ) * ((n : ℚ) / 100) = (n : ℚ) by ring, rhe_intCast]

/-- On reports actually produced by the analyzer, every `.get('score', 0)`
falls back to `0`, so the orchestrator's composite SEO score is always `0`. -/
theorem seo_score_of_reports_eq_zero (cfg : SEOCfg) (content title description : String)
    (kws : List String) :
    calculate_seo_score (analyze_content cfg content kws) (analyze_title cfg title)
      (analyze_meta_description cfg description) = 0 := by
  unfold calculate_seo_score
  rw [show pyGetNum (analyze_content cfg content kws) "score" 0 = 0 by
        unfold pyGetNum; rw [lookup_score_analyze_content],
      show pyGetNum (analyze_title cfg title) "score" 0 = 0 by
        unfold pyGetNum; rw [lookup_score_analyze_title],
      show pyGetNum (analyze_meta_description cfg description) "score" 0 = 0 by
        unfold pyGetNum; rw [lookup_score_analyze_meta_description]]
  norm_num [round2_zero]

/-- C1 (amended): the orchestrator's composite SEO score is the
`0.6/0.25/0.15`-weighted sum of the `score` entries looked up with
`.get('score', 0)`; since no report produced by `SEOAnalyzer` contains a
`score` key, every sub-score is `0` and the composite is `0` for all inputs —
it is never derived from the fraction of passed checks and never strictly
positive. -/
theorem C1_seo_composite_always_zero (cfg : SEOCfg) (content title description : String)
    (kws : List String) :
    calculate_seo_score (analyze_content cfg content kws) (analyze_title cfg title)
      (analyze_meta_description cfg description) = 0 :=
  seo_score_of_reports_eq_zero cfg content title description kws

/-- C1 counterexample: reports whose word-count, title-length and
description-length checks all pass, yet the composite SEO score is `0`, not
strictly positive as the claim states. -/
theorem C1_counterexample :
    calculate_seo_score (analyze_content c1cfg "hello world" [])
        (analyze_title defaultSEOCfg "a nice short title")
        (analyze_meta_description defaultSEOCfg "a modest description") = 0 ∧
    pyLookup "word_count_status" (analyze_content c1cfg "hello world" [])
        = some (PVal.str "good") ∧
    pyLookup "title_length_status" (analyze_title defaultSEOCfg "a nice short title")
        = some (PVal.str "good") ∧
    pyLookup "description_length_status" (analyze_meta_description defaultSEOCfg "a modest description")
        = some (PVal.str "good") := by
  refine ⟨?_, rfl, rfl, rfl⟩
  exact seo_score_of_reports_eq_zero c1cfg "hello world" "a nice short title"
    "a modest description" []

/-- C9 (amended): on empty input neither scorer raises; the quality evaluator
returns an error report with `score = 0` and `needs_rewrite = True`, while
the SEO analyzer returns an error report that carries no `score` and no
`needs_rewrite` field at all. -/
theorem C9_empty_input_reports (qcfg : QualityCfg) (scfg : SEOCfg) (orig : Option String)
    (kws : List String) :
    pyLookup "score" (evaluate_content qcfg "" orig) = some (PVal.num 0) ∧
    pyLookup "needs_rewrite" (evaluate_content qcfg "" orig) = some (PVal.bool true) ∧
    pyLookup "status" (analyze_content scfg "" kws) = some (PVal.str "error") ∧
    pyLookup "score" (analyze_content scfg "" kws) = none ∧
    pyLookup "needs_rewrite" (analyze_content scfg "" kws) = none :=
  ⟨rfl, rfl, rfl, rfl, rfl⟩

/-- C9 counterexample: for empty text the SEO analyzer's report has neither a
zero `score` nor a `needs_rewrite` flag, contrary to the claim. -/
theorem C9_counterexample :
    pyLookup "score" (analyze_content defaultSEOCfg "" []) = none ∧
    pyLookup "needs_rewrite" (analyze_content defaultSEOCfg "" []) = none :=
  ⟨rfl, rfl⟩

theorem string_length_pos {s : String} (h : s ≠ "") : 0 < s.length := by
  cases s with
  | mk data =>
    cases data with
    | nil => exact absurd rfl h
    | cons c cs => simp [String.length]

/-- C3 (amended): for non-empty text the reported `word_count` is the
character count `len(content)` (not the number of words), the status is
`good` exactly when the character count reaches the configured minimum, and
`get_seo_suggestions` never emits a too-few-words entry (shown on the
scenario-A instance: a short keyword-free text below the default 800
threshold whose content suggestions contain no `few words` phrase). -/
theorem C3_word_count_is_char_count (cfg : SEOCfg) (content : String) (kws : List String)
    (h : content ≠ "") :
    pyLookup "word_count" (analyze_content cfg content kws) = some (PVal.num content.length) ∧
    (pyLookup "word_count_status" (analyze_content cfg content kws) = some (PVal.str "good")
      ↔ cfg.min_word_count ≤ content.length) ∧
    ((get_seo_suggestions defaultSEOCfg (analyze_content defaultSEOCfg "Short draft text." [])
        (analyze_title defaultSEOCfg "a nice short title")
        (analyze_meta_description defaultSEOCfg "a longer description")).content.all
      (fun s => !(hasSub "few words".data s.data))) = true := by
  refine ⟨?_, ?_, ?_⟩
  · unfold analyze_content
    rw [if_neg h]
    rfl
  · unfold analyze_content
    rw [if_neg h]
    show some (PVal.str (if cfg.min_word_count ≤ content.length then "good" else "bad"))
        = some (PVal.str "good") ↔ cfg.min_word_count ≤ content.length
    by_cases hc : cfg.min_word_count ≤ content.length
    · rw [if_pos hc]
      simp [hc]
    · rw [if_neg hc]
      simp [hc]
  · with_unfolding_all decide

/-- C3 counterexample: on the text `ab cd` the report's `word_count` is `5`
(the character count) while the number of words in the text is `2`. -/
theorem C3_counterexample :
    pyLookup "word_count" (analyze_content defaultSEOCfg "ab cd" []) = some (PVal.num 5) ∧
    specWordCount "ab cd" = 2 ∧ (5 : ℚ) ≠ (2 : ℚ) := by
  refine ⟨by with_unfolding_all rfl, by decide, by norm_num⟩

/-- C3 witness: the amended statement instantiated at a concrete non-empty
text. -/
theorem C3_witness :
    ("abcde" : String) ≠ "" ∧
    (pyLookup "word_count" (analyze_content defaultSEOCfg "abcde" [])
        = some (PVal.num (String.length "abcde")) ∧
     (pyLookup "word_count_status" (analyze_content defaultSEOCfg "abcde" [])
        = some (PVal.str "good")
       ↔ defaultSEOCfg.min_word_count ≤ String.length "abcde") ∧
     ((get_seo_suggestions defaultSEOCfg (analyze_content defaultSEOCfg "Short draft text." [])
        (analyze_title defaultSEOCfg "a nice short title")
        (analyze_meta_description defaultSEOCfg "a longer description")).content.all
      (fun s => !(hasSub "few words".data s.data))) = true) :=
  ⟨by decide, C3_word_count_is_char_count defaultSEOCfg "abcde" [] (by decide)⟩

/-- C4 (amended): for non-empty text and a non-empty keyword, the reported
density is the case-insensitive occurrence count divided by `len(content)` —
the character count, not the word count — and the status is `good` exactly
when that character-based density lies in
`[0.5 × keyword_density, 1.5 × keyword_density]`. -/
theorem C4_density_over_char_count (cfg : SEOCfg) (content kw : String)
    (hc : content ≠ "") (hk : kw ≠ "") :
    pyGetNum (pyGetDict (pyGetDict (analyze_content cfg content [kw]) "keyword_density") kw)
        "density" 0
      = (countSubCI kw.data content.data : ℚ) / content.length ∧
    (pyLookup "status"
        (pyGetDict (pyGetDict (analyze_content cfg content [kw]) "keyword_density") kw)
      = some (PVal.str "good")
      ↔ (cfg.keyword_density * 0.5 ≤ (countSubCI kw.data content.data : ℚ) / content.length ∧
         (countSubCI kw.data content.data : ℚ) / content.length ≤ cfg.keyword_density * 1.5)) := by
  have hfil : List.filter (fun k => decide (k ≠ "")) [kw] = [kw] := by
    simp [hk]
  have hpos : (0 : ℕ) < content.length := string_length_pos hc
  have hdict : pyGetDict (pyGetDict (analyze_content cfg content [kw]) "keyword_density") kw
      = [("count", PVal.num (countSubCI kw.data content.data)),
         ("density", PVal.num ((countSubCI kw.data content.data : ℚ) / content.length)),
         ("status", PVal.str
           (if cfg.keyword_density * 0.5 ≤ (countSubCI kw.data content.data : ℚ) / content.length ∧
               (countSubCI kw.data content.data : ℚ) / content.length ≤ cfg.keyword_density * 1.5
            then "good" else "bad"))] := by
    unfold analyze_content
    rw [if_neg hc, hfil]
    show pyGetDict
        [(kw, PVal.dict
          [("count", PVal.num (countSubCI kw.data content.data)),
           ("density", PVal.num (if 0 < content.length
              then (countSubCI kw.data content.data : ℚ) / content.length else 0)),
           ("status", PVal.str
             (if cfg.keyword_density * 0.5 ≤ (if 0 < content.length
                  then (countSubCI kw.data content.data : ℚ) / content.length else 0) ∧
                 (if 0 < content.length
                  then (countSubCI kw.data content.data : ℚ) / content.length else 0)
                   ≤ cfg.keyword_density * 1.5
              then "good" else "bad"))])] kw = _
    rw [if_pos hpos]
    unfold pyGetDict pyLookup
    simp [List.lookup]
  rw [hdict]
  constructor
  · rfl
  · by_cases hb : cfg.keyword_density * 0.5 ≤ (countSubCI kw.data content.data : ℚ) / content.length ∧
        (countSubCI kw.data content.data : ℚ) / content.length ≤ cfg.keyword_density * 1.5
    · rw [if_pos hb]
      exact iff_of_true rfl hb
    · rw [if_neg hb]
      refine iff_of_false ?_ hb
      intro heq
      have hbad : PVal.str "bad" = PVal.str "good" := Option.some.inj heq
      have : ("bad" : String) = "good" := by injection hbad
      exact absurd this (by decide)

/-- C4 counterexample: `widget` occurs once in the 4-word, 20-character text
`widget is great here`; the report's density is `1/20` (count over character
count), not `1/4` (count over word count) as the claim's formula demands, the
status is `bad`, and a density suggestion is emitted. -/
theorem C4_counterexample :
    pyGetNum (pyGetDict (pyGetDict
        (analyze_content defaultSEOCfg "widget is great here" ["widget"]) "keyword_density")
        "widget") "density" 0 = 1 / 20 ∧
    countSubCI "widget".data "widget is great here".data = 1 ∧
    specWordCount "widget is great here" = 4 ∧
    (1 / 20 : ℚ) ≠ 1 / 4 ∧
    pyLookup "status" (pyGetDict (pyGetDict
        (analyze_content defaultSEOCfg "widget is great here" ["widget"]) "keyword_density")
        "widget") = some (PVal.str "bad") ∧
    ((get_seo_suggestions defaultSEOCfg
        (analyze_content defaultSEOCfg "widget is great here" ["widget"])
        (analyze_title defaultSEOCfg "t") (analyze_meta_description defaultSEOCfg "d")).content.any
      (fun s => hasSub "density is too high".data s.data)) = true := by
  refine ⟨by with_unfolding_all decide, by decide, by decide, by norm_num,
    by with_unfolding_all rfl, by with_unfolding_all decide⟩

/-- C4 witness: the amended statement instantiated at the concrete text and
keyword of the counterexample. -/
theorem C4_witness :
    ("widget is great here" : String) ≠ "" ∧ ("widget" : String) ≠ "" ∧
    (pyGetNum (pyGetDict (pyGetDict
        (analyze_content defaultSEOCfg "widget is great here" ["widget"]) "keyword_density")
        "widget") "density" 0
      = (countSubCI "widget".data "widget is great here".data : ℚ)
          / String.length "widget is great here" ∧
    (pyLookup "status" (pyGetDict (pyGetDict
        (analyze_content defaultSEOCfg "widget is great here" ["widget"]) "keyword_density")
        "widget") = some (PVal.str "good")
      ↔ (defaultSEOCfg.keyword_density * 0.5
            ≤ (countSubCI "widget".data "widget is great here".data : ℚ)
                / String.length "widget is great here" ∧
         (countSubCI "widget".data "widget is great here".data : ℚ)
            / String.length "widget is great here"
           ≤ defaultSEOCfg.keyword_density * 1.5))) :=
  ⟨by decide, by decide,
   C4_density_over_char_count defaultSEOCfg "widget is great here" "widget"
     (by decide) (by decide)⟩

theorem readability_factor_mem (cfg : QualityCfg) (rs : ℚ) (h : 0 ≤ rs)
    (hm : 0 < cfg.min_readability_score) :
    0 ≤ readability_factor cfg rs ∧ readability_factor cfg rs ≤ 30 := by
  unfold readability_factor
  split_ifs with hle
  · norm_num
  · have hlt : rs < cfg.min_readability_score := lt_of_not_le hle
    have h1 : rs / cfg.min_readability_score < 1 := (div_lt_one hm).mpr hlt
    have h2 : 0 ≤ rs / cfg.min_readability_score := by positivity
    constructor <;> nlinarith

theorem originality_factor_mem (cfg : QualityCfg) (os : ℚ) (h : 0 ≤ os)
    (hm : 0 < cfg.min_originality_score) :
    0 ≤ originality_factor cfg os ∧ originality_factor cfg os ≤ 30 := by
  unfold originality_factor
  split_ifs with hle
  · norm_num
  · have hlt : os < cfg.min_originality_score := lt_of_not_le hle
    have h1 : os / cfg.min_originality_score < 1 := (div_lt_one hm).mpr hlt
    have h2 : 0 ≤ os / cfg.min_originality_score := by positivity
    constructor <;> nlinarith

theorem sentence_length_factor_mem (cfg : QualityCfg) (asl : ℚ) (h : 0 ≤ asl)
    (hm : 0 < cfg.max_avg_sentence_length) :
    0 ≤ sentence_length_factor cfg asl ∧ sentence_length_factor cfg asl ≤ 25 := by
  unfold sentence_length_factor
  split_ifs with hle
  · norm_num
  · have hlt : cfg.max_avg_sentence_length < asl := lt_of_not_le hle
    have hpos : 0 < asl := lt_trans hm hlt
    have h1 : cfg.max_avg_sentence_length / asl < 1 := (div_lt_one hpos).mpr hlt
    have h2 : 0 ≤ cfg.max_avg_sentence_length / asl := by positivity
    constructor <;> nlinarith

theorem paragraph_factor_mem (cfg : QualityCfg) (pc : ℕ) (hm : 0 < cfg.min_paragraph_count) :
    0 ≤ paragraph_factor cfg pc ∧ paragraph_factor cfg pc ≤ 15 := by
  unfold paragraph_factor
  split_ifs with hle
  · norm_num
  · have hlt : pc < cfg.min_paragraph_count := lt_of_not_le hle
    have hmq : (0 : ℚ) < (cfg.min_paragraph_count : ℚ) := by exact_mod_cast hm
    have h1 : (pc : ℚ) / (cfg.min_paragraph_count : ℚ) < 1 := by
      rw [div_lt_one hmq]
      exact_mod_cast hlt
    have h2 : (0 : ℚ) ≤ (pc : ℚ) / (cfg.min_paragraph_count : ℚ) := by positivity
    constructor <;> nlinarith

theorem multimedia_bonus_mem (content : String) :
    0 ≤ multimedia_bonus content ∧ multimedia_bonus content ≤ 5 := by
  unfold multimedia_bonus
  constructor
  · exact le_min (by norm_num) (by positivity)
  · exact min_le_left _ _

theorem calculate_quality_score_mem (cfg : QualityCfg) (rs os asl : ℚ) (pc : ℕ)
    (content : String) (hrs : 0 ≤ rs) (hos : 0 ≤ os) (hasl : 0 ≤ asl)
    (hm1 : 0 < cfg.min_readability_score) (hm2 : 0 < cfg.min_originality_score)
    (hm3 : 0 < cfg.max_avg_sentence_length) (hm4 : 0 < cfg.min_paragraph_count) :
    0 ≤ calculate_quality_score cfg rs os asl pc content ∧
      calculate_quality_score cfg rs os asl pc content ≤ 100 := by
  have h1 := readability_factor_mem cfg rs hrs hm1
  have h2 := originality_factor_mem cfg os hos hm2
  have h3 := sentence_length_factor_mem cfg asl hasl hm3
  have h4 := paragraph_factor_mem cfg pc hm4
  have h5 := multimedia_bonus_mem content
  unfold calculate_quality_score
  set total := readability_factor cfg rs + originality_factor cfg os +
    sentence_length_factor cfg asl + paragraph_factor cfg pc with htotal
  have ht0 : 0 ≤ total := by rw [htotal]; linarith [h1.1, h2.1, h3.1, h4.1]
  set total2 := if hasSub imageMarker content.data then total + multimedia_bonus content
    else total with htotal2
  have ht2 : 0 ≤ total2 := by
    rw [htotal2]
    split_ifs
    · linarith [h5.1]
    · exact ht0
  have hmin0 : 0 ≤ min 100 total2 := le_min (by norm_num) ht2
  have hmin100 : min 100 total2 ≤ 100 := min_le_left _ _
  exact ⟨round2_nonneg hmin0, round2_le_100 hmin100⟩

theorem calc_readability_mem (s : List Char) :
    0 ≤ calc_readability s ∧ calc_readability s ≤ 100 := by
  simp only [calc_readability]
  split_ifs
  · norm_num
  · norm_num
  · constructor
    · exact round2_nonneg (le_max_left 0 _)
    · exact round2_le_100 (max_le (by norm_num) (min_le_left _ _))

theorem calc_originality_mem (c o : List Char) :
    0 ≤ calc_originality c o ∧ calc_originality c o ≤ 100 := by
  simp only [calc_originality]
  split_ifs with h
  · norm_num
  · have hcs : (pySentences c) ≠ [] := by
      intro hnil
      simp [hnil] at h
    have hlen : 0 < ((pySentences c).length : ℚ) := by
      exact_mod_cast List.length_pos.mpr hcs
    have hsim : ((List.filter (fun cs => 10 < cs.length && hasSub cs o) (pySentences c)).length : ℚ)
        ≤ ((pySentences c).length : ℚ) := by
      exact_mod_cast List.length_filter_le _ _
    have hdiv1 : (List.filter (fun cs => 10 < cs.length && hasSub cs o) (pySentences c)).length /
        ((pySentences c).length : ℚ) ≤ 1 := by
      rw [div_le_one hlen]
      exact hsim
    have hdiv0 : (0 : ℚ) ≤ (List.filter (fun cs => 10 < cs.length && hasSub cs o) (pySentences c)).length /
        ((pySentences c).length : ℚ) := by positivity
    constructor
    · exact round2_nonneg (by nlinarith)
    · exact round2_le_100 (by nlinarith)

theorem calc_avg_sentence_length_nonneg (s : List Char) :
    0 ≤ calc_avg_sentence_length s := by
  simp only [calc_avg_sentence_length]
  split_ifs
  · norm_num
  · exact round2_nonneg (by positivity)

/-- For non-empty content the `quality_score` entry of the evaluation report
is exactly the value computed by `_calculate_quality_score` on the four
sub-metrics. -/
theorem quality_score_entry (cfg : QualityCfg) (content : String) (orig : Option String)
    (h : content ≠ "") :
    pyGetNum (evaluate_content cfg content orig) "quality_score" 0
      = calculate_quality_score cfg (calc_readability content.data)
          (match orig with
           | some o => if o = "" then (100 : ℚ) else calc_originality content.data o.data
           | none => 100)
          (calc_avg_sentence_length content.data) (count_paragraphs content.data) content := by
  unfold evaluate_content
  rw [if_neg h]
  rfl

/-- The `quality_score` read back from any evaluation report of the
default-configured evaluator lies in `[0, 100]` (an empty text has no
`quality_score` entry and the `.get` default `0` applies). -/
theorem quality_score_lookup_mem (content : String) (orig : Option String) :
    0 ≤ pyGetNum (evaluate_content defaultQualityCfg content orig) "quality_score" 0 ∧
      pyGetNum (evaluate_content defaultQualityCfg content orig) "quality_score" 0 ≤ 100 := by
  by_cases h : content = ""
  · subst h
    have e : pyGetNum (evaluate_content defaultQualityCfg "" orig) "quality_score" 0 = 0 := rfl
    rw [e]
    norm_num
  · rw [quality_score_entry defaultQualityCfg content orig h]
    have hos : 0 ≤ (match orig with
        | some o => if o = "" then (100 : ℚ) else calc_originality content.data o.data
        | none => 100) := by
      match orig with
      | none => norm_num
      | some o =>
        by_cases ho : o = ""
        · simp [ho]
        · simp only [ho, if_false]
          exact (calc_originality_mem content.data o.data).1
    exact calculate_quality_score_mem defaultQualityCfg _ _ _ _ content
      (calc_readability_mem content.data).1 hos
      (calc_avg_sentence_length_nonneg content.data)
      (by norm_num [defaultQualityCfg]) (by norm_num [defaultQualityCfg])
      (by norm_num [defaultQualityCfg]) (by norm_num [defaultQualityCfg])

/-- C7 (confirmed): the quality composite read from the evaluator's report
and the orchestrator's composite SEO score both lie in `[0, 100]` for every
text, reference text, keyword list, title and description — the SEO composite
because it is always `0` on analyzer-produced reports. -/
theorem C7_composite_scores_in_range (content title description : String)
    (orig : Option String) (kws : List String) :
    (0 ≤ pyGetNum (evaluate_content defaultQualityCfg content orig) "quality_score" 0 ∧
     pyGetNum (evaluate_content defaultQualityCfg content orig) "quality_score" 0 ≤ 100) ∧
    (0 ≤ calculate_seo_score (analyze_content defaultSEOCfg content kws)
          (analyze_title defaultSEOCfg title) (analyze_meta_description defaultSEOCfg description) ∧
     calculate_seo_score (analyze_content defaultSEOCfg content kws)
          (analyze_title defaultSEOCfg title) (analyze_meta_description defaultSEOCfg description)
       ≤ 100) := by
  refine ⟨quality_score_lookup_mem content orig, ?_⟩
  rw [seo_score_of_reports_eq_zero]
  norm_num

/-- C8 (amended): the combined score is the 60/40 weighted sum of quality and
SEO composites **rounded to two decimals** (not the exact weighted sum), and
a successful rewrite attempt is accepted — returned without the extra
optimization phase — exactly when that combined score reaches
`0.6 · quality_threshold + 0.4 · seo_threshold`. -/
theorem C8_combined_score_and_acceptance :
    (∀ (qr : List (String × PVal)) (sa : SeoAnalysisBundle),
      calculate_combined_score qr sa
        = round2 (pyGetNum qr "quality_score" 0 * 0.6 +
            calculate_seo_score sa.content_analysis sa.title_analysis sa.description_analysis
              * 0.4)) ∧
    (∀ (cfg : OrchCfg) (qcfg : QualityCfg) (scfg : SEOCfg) (m : GenModel) (orig : String)
        (kws : List String) (i : ℕ), m.rewriteOut i ≠ "" →
      ((∃ x c, step2_attempt cfg qcfg scfg m orig kws i = some (Step2Out.ok x false c))
        ↔ combined_threshold cfg
            ≤ calculate_combined_score (evaluate_content qcfg (m.rewriteOut i) (some orig))
                ⟨analyze_content scfg (m.rewriteOut i) kws, analyze_title scfg m.titleOut,
                 analyze_meta_description scfg m.descOut⟩)) := by
  constructor
  · intro qr sa
    rfl
  · intro cfg qcfg scfg m orig kws i h
    simp only [step2_attempt]
    rw [if_neg h]
    by_cases hthr : combined_threshold cfg
        ≤ calculate_combined_score (evaluate_content qcfg (m.rewriteOut i) (some orig))
            ⟨analyze_content scfg (m.rewriteOut i) kws, analyze_title scfg m.titleOut,
             analyze_meta_description scfg m.descOut⟩
    · rw [if_pos hthr]
      exact iff_of_true ⟨_, _, rfl⟩ hthr
    · rw [if_neg hthr]
      refine iff_of_false ?_ hthr
      rintro ⟨x, c, heq⟩
      split_ifs at heq <;> simp at heq

/-- C8 counterexample: on an actually produced quality report with composite
`71.74` and SEO composite `0`, the source computes a combined score of
`43.04`, whereas the claim's exact weighted sum is `43.044` — the claimed
equality fails because of the final rounding. -/
theorem C8_counterexample :
    pyGetNum c8quality "quality_score" 0 = 7174 / 100 ∧
    calculate_seo_score c8bundle.content_analysis c8bundle.title_analysis
      c8bundle.description_analysis = 0 ∧
    calculate_combined_score c8quality c8bundle = 4304 / 100 ∧
    (4304 / 100 : ℚ) ≠ 7174 / 100 * 0.6 + 0 * 0.4 := by
  have h_rs : calc_readability c8text.data = 687 / 25 := by
    with_unfolding_all decide
  have h_asl : calc_avg_sentence_length c8text.data = 10 := by
    with_unfolding_all decide
  have h_pc : count_paragraphs c8text.data = 1 := by decide
  have h_q : calculate_quality_score defaultQualityCfg (687 / 25) 100 10 1 c8text
      = 7174 / 100 := by
    simp only [calculate_quality_score]
    rw [show hasSub imageMarker c8text.data = false from by decide]
    simp only [Bool.false_eq_true, if_false]
    rw [show readability_factor defaultQualityCfg (687 / 25) = 687 / 50 from by
          with_unfolding_all decide,
        show originality_factor defaultQualityCfg 100 = 30 from by
          with_unfolding_all decide,
        show sentence_length_factor defaultQualityCfg 10 = 25 from by
          with_unfolding_all decide,
        show paragraph_factor defaultQualityCfg 1 = 3 from by
          with_unfolding_all decide,
        show (687 / 50 + 30 + 25 + 3 : ℚ) = 7174 / 100 from by norm_num,
        min_eq_right (by norm_num : (7174 / 100 : ℚ) ≤ 100)]
    have := round2_int_div100 7174
    push_cast at this
    exact this
  have h_quality : pyGetNum c8quality "quality_score" 0 = 7174 / 100 := by
    show pyGetNum (evaluate_content defaultQualityCfg c8text none) "quality_score" 0 = 7174 / 100
    rw [quality_score_entry defaultQualityCfg c8text none (by decide), h_rs, h_asl, h_pc]
    exact h_q
  have h_seo : calculate_seo_score c8bundle.content_analysis c8bundle.title_analysis
      c8bundle.description_analysis = 0 :=
    seo_score_of_reports_eq_zero defaultSEOCfg "draft" "t" "d" []
  refine ⟨h_quality, h_seo, ?_, by norm_num⟩
  show round2 (pyGetNum c8quality "quality_score" 0 * 0.6 +
      calculate_seo_score c8bundle.content_analysis c8bundle.title_analysis
        c8bundle.description_analysis * 0.4) = 4304 / 100
  rw [h_quality, h_seo,
      show (7174 / 100 * 0.6 + 0 * 0.4 : ℚ) = 43044 / 1000 from by norm_num]
  have hfl : ⌊(100 : ℚ) * (43044 / 1000)⌋ = 4304 := by
    rw [Int.floor_eq_iff]
    norm_num
  have hfr : (100 : ℚ) * (43044 / 1000) - (⌊(100 : ℚ) * (43044 / 1000)⌋ : ℚ) < 1 / 2 := by
    rw [hfl]
    norm_num
  unfold round2
  rw [rhe_eq_floor_of_lt hfr, hfl]
  norm_num

/-- C8 witness: the acceptance equivalence instantiated at a concrete
model whose rewrite output is non-empty. -/
theorem C8_witness :
    c8model.rewriteOut 0 ≠ "" ∧
    ((∃ x c, step2_attempt {} {} {} c8model "source text" [] 0 = some (Step2Out.ok x false c))
      ↔ combined_threshold {}
          ≤ calculate_combined_score
              (evaluate_content {} (c8model.rewriteOut 0) (some "source text"))
              ⟨analyze_content {} (c8model.rewriteOut 0) [], analyze_title {} c8model.titleOut,
               analyze_meta_description {} c8model.descOut⟩) :=
  ⟨by decide, C8_combined_score_and_acceptance.2 {} {} {} c8model "source text" [] 0 (by decide)⟩

theorem step2_loop_calls_le (cfg : OrchCfg) (qcfg : QualityCfg) (scfg : SEOCfg) (m : GenModel)
    (orig : String) (kws : List String) : ∀ (k i : ℕ),
    (step2_loop cfg qcfg scfg m orig kws k i).2 ≤ k := by
  intro k
  induction k with
  | zero => intro i; simp [step2_loop]
  | succ k ih =>
    intro i
    simp only [step2_loop]
    cases step2_attempt cfg qcfg scfg m orig kws i with
    | some out => simp
    | none =>
      simp only []
      have := ih (i + 1)
      omega

theorem step2_loop_all_empty (cfg : OrchCfg) (qcfg : QualityCfg) (scfg : SEOCfg) (m : GenModel)
    (orig : String) (kws : List String) (h : ∀ i, m.rewriteOut i = "") : ∀ (k i : ℕ),
    (step2_loop cfg qcfg scfg m orig kws k i).1 = Step2Out.noDraft := by
  intro k
  induction k with
  | zero => intro i; rfl
  | succ k ih =>
    intro i
    have hatt : step2_attempt cfg qcfg scfg m orig kws i = none := by
      unfold step2_attempt
      rw [h i]
      rfl
    simp only [step2_loop, hatt]
    exact ih (i + 1)

/-- C2 (amended): the rewrite loop performs at most `max_rewrite_attempts`
rewrite calls (it halts), but when the generation service returns empty
output on every call the session produces **no** draft at all — the function
returns Python `None` and `process_blog` reports failure — contrary to the
claim that some draft with its reports is always returned. -/
theorem C2_loop_bounded_but_can_return_nothing (cfg : OrchCfg) (qcfg : QualityCfg)
    (scfg : SEOCfg) (m : GenModel) (orig : String) (kws : List String) :
    (step2_rewrite_and_optimize cfg qcfg scfg m orig kws).2 ≤ cfg.max_rewrite_attempts ∧
    ((∀ i, m.rewriteOut i = "") →
      (step2_rewrite_and_optimize cfg qcfg scfg m orig kws).1 = Step2Out.noDraft ∧
      process_blog_rewrite_ok (step2_rewrite_and_optimize cfg qcfg scfg m orig kws).1 = false) := by
  constructor
  · exact step2_loop_calls_le cfg qcfg scfg m orig kws cfg.max_rewrite_attempts 0
  · intro h
    have h1 := step2_loop_all_empty cfg qcfg scfg m orig kws h cfg.max_rewrite_attempts 0
    unfold step2_rewrite_and_optimize
    refine ⟨h1, ?_⟩
    rw [show (step2_loop cfg qcfg scfg m orig kws cfg.max_rewrite_attempts 0).1
        = Step2Out.noDraft from h1]
    rfl

/-- C2 counterexample: with a service that always returns empty output the
session yields no draft (`None`) and the whole run reports failure, refuting
`the run as a whole never fails`. -/
theorem C2_counterexample :
    (step2_rewrite_and_optimize {} {} {} c2model "original text" []).1 = Step2Out.noDraft ∧
    process_blog_rewrite_ok
      (step2_rewrite_and_optimize {} {} {} c2model "original text" []).1 = false :=
  ⟨rfl, rfl⟩

/-- C2 witness: the amended statement instantiated at the always-empty
generation model, with the all-empty hypothesis discharged. -/
theorem C2_witness :
    (step2_rewrite_and_optimize {} {} {} c2model "original text" []).2
        ≤ OrchCfg.max_rewrite_attempts {} ∧
    ((step2_rewrite_and_optimize {} {} {} c2model "original text" []).1 = Step2Out.noDraft ∧
      process_blog_rewrite_ok
        (step2_rewrite_and_optimize {} {} {} c2model "original text" []).1 = false) :=
  ⟨(C2_loop_bounded_but_can_return_nothing {} {} {} c2model "original text" []).1,
   (C2_loop_bounded_but_can_return_nothing {} {} {} c2model "original text" []).2
     (fun _ => rfl)⟩

theorem getD_mem_or (l : List ℕ) (i d : ℕ) : l.getD i d ∈ l ∨ l.getD i d = d := by
  by_cases h : i < l.length
  · left
    rw [List.getD_eq_getElem?_getD, List.getElem?_eq_getElem h]
    exact List.getElem_mem h
  · right
    rw [List.getD_eq_getElem?_getD, List.getElem?_eq_none (by omega)]
    rfl

theorem getD_mem_of_lt (l : List ℕ) (i d : ℕ) (h : i < l.length) : l.getD i d ∈ l := by
  rw [List.getD_eq_getElem?_getD, List.getElem?_eq_getElem h]
  exact List.getElem_mem h

/-- Every initially selected image position is a member of the
`suitable_positions` list that produced it: each branch of the selection
indexes into that list within bounds. -/
theorem initial_image_positions_subset {sp : List ℕ} {n x : ℕ}
    (h : x ∈ initial_image_positions sp n) : x ∈ sp := by
  unfold initial_image_positions at h
  split_ifs at h with h1 h2 h3
  · have hne : sp ≠ [] := by
      intro he
      simp [he] at h1
    have hlen : 0 < sp.length := List.length_pos.mpr hne
    simp only [List.mem_singleton] at h
    subst h
    exact getD_mem_of_lt sp _ 0 (Nat.div_lt_self hlen (by norm_num))
  · have hlen : 2 ≤ sp.length := by
      have := (Bool.and_eq_true _ _).mp h2
      simpa using this.2
    simp only [List.mem_cons, List.mem_singleton, List.not_mem_nil, or_false] at h
    rcases h with h | h <;> subst h
    · exact getD_mem_of_lt sp _ 0 (Nat.div_lt_self (by omega) (by norm_num))
    · refine getD_mem_of_lt sp _ 0 ?_
      rw [Nat.div_lt_iff_lt_mul (by norm_num)]
      omega
  · have hne : sp ≠ [] := by
      intro he
      simp [he] at h3
    have hlen : 0 < sp.length := List.length_pos.mpr hne
    rw [List.mem_map] at h
    obtain ⟨i, _, hi⟩ := h
    subst hi
    refine getD_mem_of_lt sp _ 0 ?_
    have : min (sp.length - 1) ((i + 1) * max 1 (sp.length / (n + 1))) ≤ sp.length - 1 :=
      min_le_left _ _
    omega
  · simp at h

theorem mem_sortedInsert {a x : ℕ} : ∀ {l : List ℕ}, x ∈ sortedInsert a l ↔ x = a ∨ x ∈ l := by
  intro l
  induction l with
  | nil => simp [sortedInsert]
  | cons b l ih =>
    simp only [sortedInsert]
    split_ifs with h1 h2
    · simp
    · subst h2
      simp only [List.mem_cons]
      tauto
    · simp only [List.mem_cons, ih]
      tauto

theorem mem_sortedDedup {x : ℕ} : ∀ {l : List ℕ}, x ∈ sortedDedup l ↔ x ∈ l := by
  intro l
  induction l with
  | nil => simp [sortedDedup]
  | cons b l ih =>
    simp only [sortedDedup, List.foldr_cons]
    rw [show List.foldr sortedInsert [] l = sortedDedup l from rfl]
    rw [mem_sortedInsert, ih]
    simp

/-- C6 (amended): whenever at least one eligible (non-heading, non-code,
longer than 20 characters) block exists, every initially selected insertion
position is eligible; in scenario C (a 9-block document with 1 heading and 8
eligible paragraphs, 3 images) the selected positions are `[3, 5, 7]`, none
of which is the heading's index 0, and the output carries exactly 3 markers.
(When no eligible block exists the source falls back to all block indices,
and gap-filling midpoints need not be eligible — see the counterexample.) -/
theorem C6_initial_positions_eligible :
    (∀ (blocks : List (List Char)) (n x : ℕ), suitable_positions blocks ≠ [] →
      x ∈ sortedDedup (initial_image_positions (choose_sp blocks) n) →
      suitableBlock (blocks.getD x []) = true) ∧
    (scenarioCBlocks.length = 9 ∧
     isHeadingBlock (scenarioCBlocks.getD 0 []) = true ∧
     suitable_positions scenarioCBlocks = [1, 2, 3, 4, 5, 6, 7, 8] ∧
     sortedDedup (initial_image_positions (choose_sp scenarioCBlocks) 3) = [3, 5, 7] ∧
     (0 : ℕ) ∉ ([3, 5, 7] : List ℕ) ∧
     countSub imageMarker ((redistribute_images scenarioCDoc 3).getD "").data = 3) := by
  constructor
  · intro blocks n x hsp hx
    have hcs : choose_sp blocks = suitable_positions blocks := by
      unfold choose_sp
      rw [if_neg (by simpa using hsp)]
    rw [hcs] at hx
    have hmem : x ∈ suitable_positions blocks :=
      initial_image_positions_subset (mem_sortedDedup.mp hx)
    exact (List.mem_filter.mp hmem).2
  · refine ⟨by decide, by decide, by decide, by decide, by decide, by decide⟩

/-- C6 counterexample: on a document whose blocks are all headings there is
no eligible block, the source falls back to all indices, and the single
marker is placed directly after the heading `# Beta` — an insertion position
that is a heading, contradicting the claim. -/
theorem C6_counterexample :
    redistribute_images "# Alpha\n\n# Beta" 1 = some "# Alpha\n\n# Beta\n\n[IMAGE]" ∧
    sortedDedup (initial_image_positions
      (choose_sp (split_markdown_blocks (removeAll imageMarker "# Alpha\n\n# Beta".data))) 1)
      = [1] ∧
    suitableBlock ((split_markdown_blocks
      (removeAll imageMarker "# Alpha\n\n# Beta".data)).getD 1 []) = false ∧
    isHeadingBlock ((split_markdown_blocks
      (removeAll imageMarker "# Alpha\n\n# Beta".data)).getD 1 []) = true := by
  refine ⟨by decide, by decide, by decide, by decide⟩

/-- C6 witness: the eligibility statement instantiated on the scenario C
blocks at position 3. -/
theorem C6_witness :
    suitable_positions scenarioCBlocks ≠ [] ∧
    (3 : ℕ) ∈ sortedDedup (initial_image_positions (choose_sp scenarioCBlocks) 3) ∧
    suitableBlock (scenarioCBlocks.getD 3 []) = true :=
  ⟨by decide, by decide,
   C6_initial_positions_eligible.1 scenarioCBlocks 3 3 (by decide) (by decide)⟩

/-- C10 evidence: for a single eligible block and two requested images the
initial selection yields `[0]`; one loop iteration then computes no new
position (`fillCandidate = none`) while `len(image_positions) = 1 < 2` and
`suitable_positions` is non-empty, so the Python `while` loop repeats the
identical body forever — `redistribute_images` does not terminate, and the
model returns `none` at every fuel. -/
theorem C10_gap_filling_diverges :
    redistribute_images divergentDoc 2 = none ∧
    choose_sp (split_markdown_blocks (removeAll imageMarker divergentDoc.data)) = [0] ∧
    sortedDedup (initial_image_positions [0] 2) = [0] ∧
    fillCandidate [0] [0] = none ∧
    ([0] : List ℕ).length < 2 ∧
    (∀ fuel, fillLoopF [0] 2 fuel [0] = none) := by
  refine ⟨by decide, by decide, by decide, by decide, by decide, ?_⟩
  intro fuel
  cases fuel with
  | zero => rfl
  | succ f => rfl

theorem countSubGo_skip (p : List Char) : ∀ (s : List Char) (k : ℕ),
    countSubGo p s k = countSubGo p (s.drop k) 0 := by
  intro s
  induction s with
  | nil => intro k; cases k <;> rfl
  | cons c cs ih =>
    intro k
    cases k with
    | zero => rfl
    | succ k =>
      show countSubGo p cs k = _
      rw [ih k]
      rfl

theorem countSub_cons_pos {p : List Char} (hp : p ≠ []) {c : Char} {cs : List Char}
    (h : p.isPrefixOf (c :: cs) = true) :
    countSub p (c :: cs) = 1 + countSub p ((c :: cs).drop p.length) := by
  obtain ⟨a, p', rfl⟩ := List.exists_cons_of_ne_nil hp
  unfold countSub
  rw [if_neg (by simp), if_neg (by simp)]
  show (if (a :: p').isPrefixOf (c :: cs) = true then
      1 + countSubGo (a :: p') cs ((a :: p').length - 1) else countSubGo (a :: p') cs 0) = _
  rw [if_pos h, countSubGo_skip]
  simp

theorem countSub_cons_neg {p : List Char} (hp : p ≠ []) {c : Char} {cs : List Char}
    (h : ¬ p.isPrefixOf (c :: cs) = true) :
    countSub p (c :: cs) = countSub p cs := by
  unfold countSub
  rw [if_neg (by simpa using hp), if_neg (by simpa using hp)]
  show (if p.isPrefixOf (c :: cs) = true then
      1 + countSubGo p cs (p.length - 1) else countSubGo p cs 0) = _
  rw [if_neg h]

theorem countSub_nil (p : List Char) : countSub p [] = 0 := by
  unfold countSub
  split <;> rfl

theorem OccSub.mono {p q s : List Char} (hq : q <:+: s) : OccSub p q → OccSub p s := by
  rintro ⟨a, b, rfl⟩
  obtain ⟨x, y, rfl⟩ := hq
  exact ⟨x ++ a, b ++ y, by simp⟩

theorem OccSub_of_isPrefixOf {p s : List Char} (h : p.isPrefixOf s = true) : OccSub p s := by
  obtain ⟨t, rfl⟩ := List.isPrefixOf_iff_prefix.mp h
  exact ⟨[], t, rfl⟩

theorem countSub_eq_zero_iff {p : List Char} (hp : p ≠ []) :
    ∀ s : List Char, countSub p s = 0 ↔ ¬ OccSub p s := by
  have key : ∀ (N : ℕ) (s : List Char), s.length ≤ N →
      (countSub p s = 0 ↔ ¬ OccSub p s) := by
    intro N
    induction N with
    | zero =>
      intro s hs
      have : s = [] := List.eq_nil_of_length_eq_zero (Nat.le_zero.mp hs)
      subst this
      rw [countSub_nil]
      simp only [true_iff]
      rintro ⟨a, b, heq⟩
      rw [List.append_assoc] at heq
      cases a with
      | nil =>
        simp only [List.nil_append] at heq
        exact hp (List.append_eq_nil.mp heq.symm).1
      | cons x xs => simp at heq
    | succ N ih =>
      intro s hs
      cases s with
      | nil =>
        rw [countSub_nil]
        simp only [true_iff]
        rintro ⟨a, b, heq⟩
        rw [List.append_assoc] at heq
        cases a with
        | nil =>
          simp only [List.nil_append] at heq
          exact hp (List.append_eq_nil.mp heq.symm).1
        | cons x xs => simp at heq
      | cons c cs =>
        by_cases hpre : p.isPrefixOf (c :: cs) = true
        · rw [countSub_cons_pos hp hpre]
          exact iff_of_false (by omega) (by
            intro hno
            exact hno (OccSub_of_isPrefixOf hpre))
        · rw [countSub_cons_neg hp hpre]
          rw [ih cs (by simpa using Nat.lt_succ_iff.mp (Nat.lt_of_lt_of_le
            (by simp) hs))]
          constructor
          · rintro hno ⟨a, b, heq⟩
            cases a with
            | nil =>
              exact hpre (List.isPrefixOf_iff_prefix.mpr ⟨b, by simpa using heq.symm⟩)
            | cons a' as =>
              simp only [List.cons_append, List.cons.injEq] at heq
              exact hno ⟨as, b, heq.2⟩
          · rintro hno ⟨a, b, heq⟩
            exact hno ⟨c :: a, b, by simp [heq]⟩
  intro s
  exact key s.length s le_rfl

theorem countSub_zero_of_within {p s q : List Char} (hp : p ≠ [])
    (hs : countSub p s = 0) (hq : q <:+: s) : countSub p q = 0 := by
  rw [countSub_eq_zero_iff hp] at hs ⊢
  exact fun h => hs (h.mono hq)

/-- A pattern without newlines that is a prefix of `u ++ '\n' :: v` must lie
entirely inside `u`. -/
theorem prefix_stops_at_newline {p u v : List Char} (hnl : '\n' ∉ p) (hpre : p <+: (u ++ '\n' :: v)) : p <+: u ∧ p.length ≤ u.length := by
  have hle : p.length ≤ u.length := by
    by_contra hgt
    push_neg at hgt
    have hun : u ++ ['\n'] <+: u ++ '\n' :: v := ⟨v, by simp⟩
    have h2 : u ++ ['\n'] <+: p :=
      List.prefix_of_prefix_length_le hun hpre (by simp; omega)
    exact hnl (h2.subset (List.mem_append_right u (List.mem_singleton.mpr rfl)))
  have htake := List.prefix_iff_eq_take.mp hpre
  rw [List.take_append_of_le_length hle] at htake
  exact ⟨List.prefix_iff_eq_take.mpr htake, hle⟩

/-- Scanning barrier: occurrences of a newline-free pattern cannot straddle a
newline, so the left-to-right count splits there. -/
theorem countSub_append_newline {p : List Char} (hnl : '\n' ∉ p) (hp : p ≠ []) :
    ∀ (u v : List Char), countSub p (u ++ '\n' :: v)
      = countSub p u + countSub p ('\n' :: v) := by
  have key : ∀ (N : ℕ) (u v : List Char), u.length ≤ N →
      countSub p (u ++ '\n' :: v) = countSub p u + countSub p ('\n' :: v) := by
    intro N
    induction N with
    | zero =>
      intro u v hu
      have : u = [] := List.eq_nil_of_length_eq_zero (Nat.le_zero.mp hu)
      subst this
      rw [countSub_nil]
      simp
    | succ N ih =>
      intro u v hu
      cases u with
      | nil =>
        rw [countSub_nil]
        simp
      | cons c u' =>
        by_cases hpre : p.isPrefixOf (c :: u' ++ '\n' :: v) = true
        · have hsplit := prefix_stops_at_newline (u := c :: u') (v := v) hnl
            (List.isPrefixOf_iff_prefix.mp hpre)
          have hpreu : p.isPrefixOf (c :: u') = true :=
            List.isPrefixOf_iff_prefix.mpr hsplit.1
          have hlen : p.length ≤ (c :: u').length := hsplit.2
          have hplen : 1 ≤ p.length := by
            cases p with
            | nil => exact absurd rfl hp
            | cons a b => simp
          rw [show (c :: u') ++ '\n' :: v = c :: (u' ++ '\n' :: v) by simp] at hpre ⊢
          rw [countSub_cons_pos hp hpre, countSub_cons_pos hp hpreu]
          rw [show (c :: (u' ++ '\n' :: v)).drop p.length
              = (c :: u').drop p.length ++ '\n' :: v by
            rw [show c :: (u' ++ '\n' :: v) = (c :: u') ++ '\n' :: v by simp]
            rw [List.drop_append_of_le_length hlen]]
          rw [ih ((c :: u').drop p.length) v (by
            rw [List.length_drop]
            simp at hu ⊢
            omega)]
          omega
        · have hpreu : ¬ p.isPrefixOf (c :: u') = true := by
            intro hyes
            exact hpre (List.isPrefixOf_iff_prefix.mpr
              ((List.isPrefixOf_iff_prefix.mp hyes).trans (by
                exact ⟨'\n' :: v, by simp⟩)))
          rw [show (c :: u') ++ '\n' :: v = c :: (u' ++ '\n' :: v) by simp]
          rw [countSub_cons_neg hp (by
            rw [show c :: (u' ++ '\n' :: v) = (c :: u') ++ '\n' :: v by simp]
            exact hpre), countSub_cons_neg hp hpreu]
          exact ih u' v (by simp at hu; omega)
  intro u v
  exact key u.length u v le_rfl

theorem countSub_cons_newline {p : List Char} (hnl : '\n' ∉ p) (hp : p ≠ [])
    (v : List Char) : countSub p ('\n' :: v) = countSub p v := by
  have hpre : ¬ p.isPrefixOf ('\n' :: v) = true := by
    intro hyes
    obtain ⟨a, p', rfl⟩ := List.exists_cons_of_ne_nil hp
    have := List.isPrefixOf_iff_prefix.mp hyes
    obtain ⟨t, ht⟩ := this
    simp only [List.cons_append, List.cons.injEq] at ht
    apply hnl
    rw [ht.1]
    simp
  exact countSub_cons_neg hp hpre

theorem countSub_append_sep {p : List Char} (hnl : '\n' ∉ p) (hp : p ≠ [])
    (u v : List Char) : countSub p (u ++ '\n' :: '\n' :: v)
      = countSub p u + countSub p v := by
  rw [countSub_append_newline hnl hp u ('\n' :: v), countSub_cons_newline hnl hp,
    countSub_cons_newline hnl hp]

theorem intercalate_nil_pieces (sep : List Char) :
    List.intercalate sep ([] : List (List Char)) = [] := rfl

theorem intercalate_single (sep x : List Char) : List.intercalate sep [x] = x := by
  simp [List.intercalate]

theorem intercalate_cons_cons (sep x y : List Char) (zs : List (List Char)) :
    List.intercalate sep (x :: y :: zs) = x ++ sep ++ List.intercalate sep (y :: zs) := by
  simp [List.intercalate]

/-- Occurrence counting distributes over a double-newline-separated join when
the pattern contains no newline. -/
theorem countSub_intercalate {p : List Char} (hnl : '\n' ∉ p) (hp : p ≠ []) :
    ∀ pieces : List (List Char),
      countSub p (List.intercalate ['\n', '\n'] pieces) = (pieces.map (countSub p)).sum
  | [] => by rw [intercalate_nil_pieces, countSub_nil]; rfl
  | [x] => by rw [intercalate_single]; simp
  | x :: y :: zs => by
    rw [intercalate_cons_cons]
    rw [show x ++ ['\n', '\n'] ++ List.intercalate ['\n', '\n'] (y :: zs)
        = x ++ '\n' :: '\n' :: List.intercalate ['\n', '\n'] (y :: zs) by simp]
    rw [countSub_append_sep hnl hp, countSub_intercalate hnl hp (y :: zs)]
    simp

theorem removeAllGo_skip (p : List Char) : ∀ (s : List Char) (k : ℕ),
    removeAllGo p s k = removeAllGo p (s.drop k) 0 := by
  intro s
  induction s with
  | nil => intro k; cases k <;> rfl
  | cons c cs ih =>
    intro k
    cases k with
    | zero => rfl
    | succ k =>
      show removeAllGo p cs k = _
      rw [ih k]
      rfl

theorem removeAll_cons_pos {p : List Char} (hp : p ≠ []) {c : Char} {cs : List Char}
    (h : p.isPrefixOf (c :: cs) = true) :
    removeAll p (c :: cs) = removeAll p ((c :: cs).drop p.length) := by
  obtain ⟨a, p', rfl⟩ := List.exists_cons_of_ne_nil hp
  unfold removeAll
  rw [if_neg (by simp), if_neg (by simp)]
  show (if (a :: p').isPrefixOf (c :: cs) = true then
      removeAllGo (a :: p') cs ((a :: p').length - 1) else c :: removeAllGo (a :: p') cs 0) = _
  rw [if_pos h, removeAllGo_skip]
  simp

theorem removeAll_cons_neg {p : List Char} (hp : p ≠ []) {c : Char} {cs : List Char}
    (h : ¬ p.isPrefixOf (c :: cs) = true) :
    removeAll p (c :: cs) = c :: removeAll p cs := by
  unfold removeAll
  rw [if_neg (by simpa using hp), if_neg (by simpa using hp)]
  show (if p.isPrefixOf (c :: cs) = true then
      removeAllGo p cs (p.length - 1) else c :: removeAllGo p cs 0) = _
  rw [if_neg h]

theorem removeAll_nil (p : List Char) : removeAll p [] = [] := by
  unfold removeAll
  split <;> rfl

/-- Removing a newline-free pattern acts independently on the two sides of a
newline. -/
theorem removeAll_append_newline {p : List Char} (hnl : '\n' ∉ p) (hp : p ≠ []) :
    ∀ (u v : List Char), removeAll p (u ++ '\n' :: v)
      = removeAll p u ++ '\n' :: removeAll p v := by
  have key : ∀ (N : ℕ) (u v : List Char), u.length ≤ N →
      removeAll p (u ++ '\n' :: v) = removeAll p u ++ '\n' :: removeAll p v := by
    intro N
    induction N with
    | zero =>
      intro u v hu
      have : u = [] := List.eq_nil_of_length_eq_zero (Nat.le_zero.mp hu)
      subst this
      rw [removeAll_nil]
      simp
      rw [removeAll_cons_neg hp (by
        intro hyes
        obtain ⟨a, p', rfl⟩ := List.exists_cons_of_ne_nil hp
        obtain ⟨t, ht⟩ := List.isPrefixOf_iff_prefix.mp hyes
        simp only [List.cons_append, List.cons.injEq] at ht
        exact hnl (by rw [ht.1]; simp))]
    | succ N ih =>
      intro u v hu
      cases u with
      | nil =>
        rw [removeAll_nil]
        simp
        rw [removeAll_cons_neg hp (by
          intro hyes
          obtain ⟨a, p', rfl⟩ := List.exists_cons_of_ne_nil hp
          obtain ⟨t, ht⟩ := List.isPrefixOf_iff_prefix.mp hyes
          simp only [List.cons_append, List.cons.injEq] at ht
          exact hnl (by rw [ht.1]; simp))]
      | cons c u' =>
        by_cases hpre : p.isPrefixOf (c :: u' ++ '\n' :: v) = true
        · have hsplit := prefix_stops_at_newline (u := c :: u') (v := v) hnl
            (List.isPrefixOf_iff_prefix.mp hpre)
          have hpreu : p.isPrefixOf (c :: u') = true :=
            List.isPrefixOf_iff_prefix.mpr hsplit.1
          have hlen : p.length ≤ (c :: u').length := hsplit.2
          rw [show (c :: u') ++ '\n' :: v = c :: (u' ++ '\n' :: v) by simp] at hpre ⊢
          rw [removeAll_cons_pos hp hpre, removeAll_cons_pos hp hpreu]
          rw [show (c :: (u' ++ '\n' :: v)).drop p.length
              = (c :: u').drop p.length ++ '\n' :: v by
            rw [show c :: (u' ++ '\n' :: v) = (c :: u') ++ '\n' :: v by simp]
            rw [List.drop_append_of_le_length hlen]]
          exact ih ((c :: u').drop p.length) v (by
            have hplen : 1 ≤ p.length := by
              cases p with
              | nil => exact absurd rfl hp
              | cons a b => simp
            rw [List.length_drop]
            simp at hu ⊢
            omega)
        · have hpreu : ¬ p.isPrefixOf (c :: u') = true := by
            intro hyes
            exact hpre (List.isPrefixOf_iff_prefix.mpr
              ((List.isPrefixOf_iff_prefix.mp hyes).trans ⟨'\n' :: v, by simp⟩))
          rw [show (c :: u') ++ '\n' :: v = c :: (u' ++ '\n' :: v) by simp]
          rw [removeAll_cons_neg hp (by
            rw [show c :: (u' ++ '\n' :: v) = (c :: u') ++ '\n' :: v by simp]
            exact hpre), removeAll_cons_neg hp hpreu]
          rw [ih u' v (by simp at hu; omega)]
          rfl
  intro u v
  exact key u.length u v le_rfl

theorem removeAll_append_sep {p : List Char} (hnl : '\n' ∉ p) (hp : p ≠ [])
    (u v : List Char) : removeAll p (u ++ '\n' :: '\n' :: v)
      = removeAll p u ++ '\n' :: '\n' :: removeAll p v := by
  rw [removeAll_append_newline hnl hp u ('\n' :: v)]
  rw [show ('\n' :: v : List Char) = [] ++ '\n' :: v by simp,
    removeAll_append_newline hnl hp [] v, removeAll_nil]
  simp

/-- Removal distributes over a double-newline-separated join when the pattern
contains no newline. -/
theorem removeAll_intercalate {p : List Char} (hnl : '\n' ∉ p) (hp : p ≠ []) :
    ∀ pieces : List (List Char),
      removeAll p (List.intercalate ['\n', '\n'] pieces)
        = List.intercalate ['\n', '\n'] (pieces.map (removeAll p))
  | [] => by rw [intercalate_nil_pieces, removeAll_nil]; rfl
  | [x] => by rw [intercalate_single]; simp [intercalate_single]
  | x :: y :: zs => by
    rw [intercalate_cons_cons]
    rw [show x ++ ['\n', '\n'] ++ List.intercalate ['\n', '\n'] (y :: zs)
        = x ++ '\n' :: '\n' :: List.intercalate ['\n', '\n'] (y :: zs) by simp]
    rw [removeAll_append_sep hnl hp, removeAll_intercalate hnl hp (y :: zs)]
    show _ = List.intercalate ['\n', '\n'] (removeAll p x :: removeAll p y :: _)
    rw [intercalate_cons_cons]
    simp

/-- A string containing no occurrence of `p` is left unchanged by removal. -/
theorem removeAll_of_countSub_zero {p : List Char} (hp : p ≠ []) :
    ∀ s : List Char, countSub p s = 0 → removeAll p s = s := by
  intro s
  induction s with
  | nil => intro _; exact removeAll_nil p
  | cons c cs ih =>
    intro h0
    by_cases hpre : p.isPrefixOf (c :: cs) = true
    · rw [countSub_cons_pos hp hpre] at h0
      omega
    · rw [countSub_cons_neg hp hpre] at h0
      rw [removeAll_cons_neg hp hpre, ih h0]

/-- Removing the pattern from the pattern itself leaves nothing. -/
theorem removeAll_self {p : List Char} (hp : p ≠ []) : removeAll p p = [] := by
  obtain ⟨a, p', rfl⟩ := List.exists_cons_of_ne_nil hp
  rw [removeAll_cons_pos hp (List.isPrefixOf_iff_prefix.mpr List.prefix_rfl)]
  rw [List.drop_length]
  exact removeAll_nil _

/-- Every piece produced by the blank-line splitter is a contiguous substring
of the input (prepended with the pending accumulator). -/
theorem splitBlankGo_within : ∀ (l : List Char) (k : ℕ) (acc : List Char),
    (k ≠ 0 → acc = []) → ∀ p ∈ splitBlankGo l k acc, p <:+: (acc.reverse ++ l) := by
  intro l
  induction l with
  | nil =>
    intro k acc _ p hp
    cases k with
    | zero =>
      simp only [splitBlankGo, List.mem_singleton] at hp
      subst hp
      simp
    | succ k =>
      simp only [splitBlankGo, List.mem_singleton] at hp
      subst hp
      simp
  | cons c cs ih =>
    intro k acc hinv p hp
    cases k with
    | succ k =>
      have hacc : acc = [] := hinv (by simp)
      subst hacc
      have := ih k [] (fun _ => rfl) p (by simpa [splitBlankGo] using hp)
      simp at this ⊢
      exact this.trans (List.infix_cons List.infix_rfl)
    | zero =>
      show p <:+: acc.reverse ++ c :: cs
      rw [splitBlankGo] at hp
      by_cases hc : (c == '\n') = true
      · rw [if_pos hc] at hp
        cases hlast : lastNlIdx (cs.takeWhile pyIsSpace) with
        | some j =>
          rw [hlast] at hp
          rcases List.mem_cons.mp hp with hhead | htail
          · subst hhead
            exact (List.prefix_append acc.reverse (c :: cs)).isInfix
          · have := ih (j + 1) [] (fun _ => rfl) p htail
            simp at this
            exact this.trans ⟨acc.reverse ++ [c], [], by simp⟩
        | none =>
          rw [hlast] at hp
          have := ih 0 (c :: acc) (by simp) p hp
          simpa using this
      · rw [if_neg hc] at hp
        have := ih 0 (c :: acc) (by simp) p hp
        simpa using this

/-- Every piece produced by the list-item splitter is a contiguous substring
of the input (prepended with the pending accumulator). -/
theorem itemSplitGo_within : ∀ (l : List Char) (acc : List Char),
    ∀ p ∈ itemSplitGo l acc, p <:+: (acc.reverse ++ l) := by
  intro l
  induction l with
  | nil =>
    intro acc p hp
    simp only [itemSplitGo, List.mem_singleton] at hp
    subst hp
    simp
  | cons c cs ih =>
    intro acc p hp
    rw [itemSplitGo] at hp
    by_cases hc : (c == '\n' && isListStartL cs) = true
    · rw [if_pos hc] at hp
      rcases List.mem_cons.mp hp with hhead | htail
      · subst hhead
        exact (List.prefix_append acc.reverse (c :: cs)).isInfix
      · have := ih [] p htail
        simp at this
        exact this.trans ⟨acc.reverse ++ [c], [], by simp⟩
    · rw [if_neg hc] at hp
      have := ih (c :: acc) p hp
      simpa using this

/-- Python `strip` returns a contiguous substring. -/
theorem pyStrip_within (l : List Char) : pyStrip l <:+: l := by
  unfold pyStrip
  have h1 : l.dropWhile pyIsSpace <:+ l := List.dropWhile_suffix _
  have h2 : (l.dropWhile pyIsSpace).reverse.dropWhile pyIsSpace
      <:+ (l.dropWhile pyIsSpace).reverse := List.dropWhile_suffix _
  have h3 : ((l.dropWhile pyIsSpace).reverse.dropWhile pyIsSpace).reverse
      <+: l.dropWhile pyIsSpace := by
    have h4 := List.reverse_prefix.mpr h2
    simpa using h4
  exact h3.isInfix.trans h1.isInfix

/-- Every block of `_split_markdown_blocks` is a contiguous substring of the
raw paragraph it came from. -/
theorem blockOfPara_within (raw : List Char) : ∀ b ∈ blockOfPara raw, b <:+: raw := by
  intro b hb
  simp only [blockOfPara] at hb
  have hpara : pyStrip raw <:+: raw := pyStrip_within raw
  split_ifs at hb with h1 h2 h3 h4
  · simp at hb
  · simp at hb
    subst hb
    exact hpara
  · have hitem : b ∈ itemSplit (pyStrip raw) := List.mem_of_mem_filter hb
    have := itemSplitGo_within (pyStrip raw) [] b (by simpa [itemSplit] using hitem)
    simp at this
    exact this.trans hpara
  · simp at hb
    subst hb
    exact hpara
  · simp at hb
    subst hb
    exact hpara

/-- Every block of `_split_markdown_blocks` is a contiguous substring of the
input. -/
theorem split_markdown_blocks_within (s : List Char) :
    ∀ b ∈ split_markdown_blocks s, b <:+: s := by
  intro b hb
  unfold split_markdown_blocks at hb
  obtain ⟨raw, hraw, hbraw⟩ := List.mem_flatMap.mp hb
  have h1 : b <:+: raw := blockOfPara_within raw b hbraw
  have h2 : raw <:+: s := by
    have := splitBlankGo_within s 0 [] (by simp) raw (by simpa [splitBlank] using hraw)
    simpa using this
  exact h1.trans h2

theorem sorted_sortedInsert {a : ℕ} : ∀ {l : List ℕ},
    List.Sorted (· < ·) l → List.Sorted (· < ·) (sortedInsert a l) := by
  intro l
  induction l with
  | nil => intro _; simp [sortedInsert]
  | cons b l ih =>
    intro hs
    rw [List.sorted_cons] at hs
    simp only [sortedInsert]
    split_ifs with h1 h2
    · rw [List.sorted_cons]
      refine ⟨?_, List.sorted_cons.mpr hs⟩
      intro x hx
      rcases List.mem_cons.mp hx with rfl | hx
      · exact h1
      · exact h1.trans (hs.1 x hx)
    · exact List.sorted_cons.mpr hs
    · rw [List.sorted_cons]
      refine ⟨?_, ih hs.2⟩
      intro x hx
      rcases mem_sortedInsert.mp hx with rfl | hx
      · omega
      · exact hs.1 x hx

theorem sorted_sortedDedup : ∀ l : List ℕ, List.Sorted (· < ·) (sortedDedup l) := by
  intro l
  induction l with
  | nil => simp [sortedDedup]
  | cons b l ih =>
    show List.Sorted (· < ·) (sortedInsert b (sortedDedup l))
    exact sorted_sortedInsert ih

theorem length_sortedInsert_of_not_mem {a : ℕ} : ∀ {l : List ℕ}, a ∉ l →
    (sortedInsert a l).length = l.length + 1 := by
  intro l
  induction l with
  | nil => intro _; rfl
  | cons b l ih =>
    intro ha
    simp only [sortedInsert]
    split_ifs with h1 h2
    · rfl
    · exact absurd (h2 ▸ List.mem_cons_self b l) ha
    · simp only [List.length_cons, ih (fun h => ha (List.mem_cons_of_mem b h))]

theorem maxGapFold_snd_cases : ∀ (pairs : List (ℕ × ℕ)) (st : ℕ × ℕ),
    (maxGapFold pairs st).2 = st.2 ∨
      ∃ ab ∈ pairs, (maxGapFold pairs st).2 = (ab.1 + ab.2) / 2 := by
  intro pairs
  induction pairs with
  | nil => intro st; left; rfl
  | cons ab rest ih =>
    intro st
    obtain ⟨a, b⟩ := ab
    simp only [maxGapFold]
    split_ifs with h
    · rcases ih (b - a, (a + b) / 2) with h1 | ⟨cd, hcd, h2⟩
      · right
        exact ⟨(a, b), List.mem_cons_self _ _, h1⟩
      · right
        exact ⟨cd, List.mem_cons_of_mem _ hcd, h2⟩
    · rcases ih st with h1 | ⟨cd, hcd, h2⟩
      · left
        exact h1
      · right
        exact ⟨cd, List.mem_cons_of_mem _ hcd, h2⟩

theorem maxGapInsertAt_lt {pos : List ℕ} {B : ℕ} (hB : 0 < B)
    (hpos : ∀ x ∈ pos, x < B) : maxGapInsertAt pos < B := by
  unfold maxGapInsertAt
  rcases maxGapFold_snd_cases (pos.zip pos.tail) (0, 0) with h | ⟨ab, hab, h⟩
  · rw [h]; exact hB
  · rw [h]
    obtain ⟨ha, hb⟩ := List.of_mem_zip hab
    have h1 := hpos ab.1 ha
    have h2 := hpos ab.2 (List.mem_of_mem_tail hb)
    omega

theorem fillCandidate_lt {sp pos : List ℕ} {B x : ℕ} (hB : 0 < B)
    (hsp : ∀ y ∈ sp, y < B) (hpos : ∀ y ∈ pos, y < B)
    (h : fillCandidate sp pos = some x) : x < B := by
  unfold fillCandidate at h
  split_ifs at h with h1
  · dsimp only at h
    split_ifs at h with h2
    simp only [Option.some.injEq] at h
    subst h
    exact maxGapInsertAt_lt hB hpos
  · cases hh : sp.head? with
    | none => rw [hh] at h; cases hl : sp.getLast? <;> rw [hl] at h <;> simp at h
    | some hd =>
      rw [hh] at h
      cases hl : sp.getLast? with
      | none => rw [hl] at h; simp at h
      | some lst =>
        rw [hl] at h
        dsimp only at h
        have hhd : hd ∈ sp := List.mem_of_mem_head? hh
        have hlst : lst ∈ sp := by
          rw [List.getLast?_eq_getElem?] at hl
          exact List.getElem?_mem hl
        split_ifs at h <;> simp only [Option.some.injEq] at h <;> subst h
        · exact hsp _ hhd
        · exact hsp _ hlst

theorem fillCandidate_not_mem {sp pos : List ℕ} {x : ℕ}
    (h : fillCandidate sp pos = some x) : x ∉ pos := by
  unfold fillCandidate at h
  split_ifs at h with h1
  · dsimp only at h
    split_ifs at h with h2
    simp only [Option.some.injEq] at h
    subst h
    simpa using h2
  · cases hh : sp.head? with
    | none => rw [hh] at h; cases hl : sp.getLast? <;> rw [hl] at h <;> simp at h
    | some hd =>
      rw [hh] at h
      cases hl : sp.getLast? with
      | none => rw [hl] at h; simp at h
      | some lst =>
        rw [hl] at h
        dsimp only at h
        split_ifs at h with h3 h4 <;> simp only [Option.some.injEq] at h <;> subst h
        · have := (Bool.and_eq_true _ _).mp h3
          simpa using this.2
        · simpa using h4

/-- Invariants carried through the position-filling loop: a successful run
starting from a sorted in-range position list yields a sorted in-range list
with at least `n` elements. -/
theorem fillLoopF_some_inv {sp : List ℕ} {n B : ℕ} (hspB : ∀ x ∈ sp, x < B)
    (hB : 0 < B) (hsp : ¬ sp.isEmpty = true) :
    ∀ (fuel : ℕ) (pos Q : List ℕ), List.Sorted (· < ·) pos → (∀ x ∈ pos, x < B) →
      fillLoopF sp n fuel pos = some Q →
      List.Sorted (· < ·) Q ∧ (∀ x ∈ Q, x < B) ∧ n ≤ Q.length := by
  intro fuel
  induction fuel with
  | zero => intro pos Q _ _ h; exact absurd h (by simp [fillLoopF])
  | succ fuel ih =>
    intro pos Q hsorted hposB h
    rw [fillLoopF] at h
    split_ifs at h with hcond
    · cases hc : fillCandidate sp pos with
      | none => rw [hc] at h; exact absurd h (by simp)
      | some x =>
        rw [hc] at h
        refine ih (sortedInsert x pos) Q (sorted_sortedInsert hsorted) ?_ h
        intro y hy
        rcases mem_sortedInsert.mp hy with rfl | hy
        · exact fillCandidate_lt hB hspB hposB hc
        · exact hposB y hy
    · simp only [Option.some.injEq] at h
      subst h
      refine ⟨hsorted, hposB, ?_⟩
      rw [Bool.and_eq_true] at hcond
      push_neg at hcond
      by_cases hlen : pos.length < n
      · have := hcond (by simpa using hlen)
        simp [hsp] at this
      · omega

theorem countSub_self {p : List Char} (hp : p ≠ []) : countSub p p = 1 := by
  obtain ⟨a, p', rfl⟩ := List.exists_cons_of_ne_nil hp
  rw [countSub_cons_pos hp (List.isPrefixOf_iff_prefix.mpr List.prefix_rfl)]
  rw [List.drop_length, countSub_nil]

/-- For a duplicate-free list of positions below `L`, the number of indices of
`range L` lying in the list is its length. -/
theorem filter_range_contains_length {pos : List ℕ} {L : ℕ} (hnd : pos.Nodup)
    (hlt : ∀ x ∈ pos, x < L) :
    ((List.range L).filter (fun i => pos.contains i)).length = pos.length := by
  have hmemiff : ∀ a : ℕ, pos.contains a = true ↔ a ∈ pos := by
    intro a
    rw [List.contains_iff_exists_mem_beq]
    constructor
    · rintro ⟨a', ha', he⟩
      rw [eq_of_beq he]
      exact ha'
    · intro h
      exact ⟨a, h, by simp⟩
  have hperm : List.Perm ((List.range L).filter (fun i => pos.contains i)) pos := by
    rw [List.perm_ext_iff_of_nodup (List.Nodup.filter _ (List.nodup_range L)) hnd]
    intro a
    simp only [List.mem_filter, List.mem_range]
    constructor
    · intro h
      exact (hmemiff a).mp h.2
    · intro h
      exact ⟨hlt a h, (hmemiff a).mpr h⟩
  exact hperm.length_eq

/-- Occurrence count of the inserted pieces: each occurrence-free block
contributes nothing and each inserted copy of the pattern contributes one. -/
theorem flatMap_pieces_sum (pos : List ℕ) {p : List Char} (hp : p ≠ []) :
    ∀ (bs : List (List Char)) (k : ℕ), (∀ b ∈ bs, countSub p b = 0) →
      (((bs.enumFrom k).flatMap
          (fun ib => if pos.contains ib.1 then [ib.2, p] else [ib.2])).map
        (countSub p)).sum
      = ((List.range' k bs.length).filter (fun i => pos.contains i)).length := by
  intro bs
  induction bs with
  | nil => intro k _; rfl
  | cons b bs ih =>
    intro k hb
    have hb0 : countSub p b = 0 := hb b (List.mem_cons_self _ _)
    have hbs : ∀ x ∈ bs, countSub p x = 0 := fun x hx => hb x (List.mem_cons_of_mem _ hx)
    show ((((k, b) :: bs.enumFrom (k + 1)).flatMap
        (fun ib => if pos.contains ib.1 then [ib.2, p] else [ib.2])).map
      (countSub p)).sum = _
    rw [List.flatMap_cons, List.map_append, List.sum_append, ih (k + 1) hbs]
    rw [show List.range' k (b :: bs).length = k :: List.range' (k + 1) bs.length from rfl]
    rw [List.filter_cons]
    by_cases hk : pos.contains k = true
    · rw [if_pos hk, if_pos hk]
      simp [hb0, countSub_self hp]
      omega
    · rw [if_neg hk, if_neg (by simpa using hk)]
      simp [hb0]

theorem imageMarker_ne_nil : imageMarker ≠ [] := by decide

theorem newline_not_mem_imageMarker : '\n' ∉ imageMarker := by decide

theorem choose_sp_lt {blocks : List (List Char)} :
    ∀ x ∈ choose_sp blocks, x < blocks.length := by
  intro x hx
  unfold choose_sp at hx
  dsimp only at hx
  split_ifs at hx with h1
  · simpa using hx
  · have : x ∈ List.range blocks.length := List.mem_of_mem_filter hx
    simpa using this

theorem choose_sp_not_isEmpty {blocks : List (List Char)}
    (hb : blocks ≠ []) : ¬ (choose_sp blocks).isEmpty = true := by
  unfold choose_sp
  dsimp only
  split_ifs with h1
  · simp [List.isEmpty_iff, hb]
  · simpa using h1

/-- Core counting property of `redistribute_images`: whenever the input
(after marker removal) splits into at least one block, marker removal leaves
no residual marker occurrence, and the filling loop terminates, the returned
text contains exactly `n` markers. -/
theorem redistribute_count_core (t : String) (n : ℕ) (r : String)
    (hbne : split_markdown_blocks (removeAll imageMarker t.data) ≠ [])
    (hm : countSub imageMarker (removeAll imageMarker t.data) = 0)
    (hr : redistribute_images t n = some r) :
    countSub imageMarker r.data = n := by
  simp only [redistribute_images] at hr
  rw [if_neg (by simpa [List.isEmpty_iff] using hbne)] at hr
  cases hfl : fillLoopF (choose_sp (split_markdown_blocks (removeAll imageMarker t.data))) n
      (n + 1)
      (sortedDedup (initial_image_positions
        (choose_sp (split_markdown_blocks (removeAll imageMarker t.data))) n)) with
  | none => rw [hfl] at hr; exact absurd hr (by simp)
  | some pos1 =>
    rw [hfl] at hr
    simp only [Option.some.injEq] at hr
    subst hr
    have hB : 0 < (split_markdown_blocks (removeAll imageMarker t.data)).length :=
      List.length_pos.mpr hbne
    have hinit_sorted := sorted_sortedDedup (initial_image_positions
      (choose_sp (split_markdown_blocks (removeAll imageMarker t.data))) n)
    have hinit_lt : ∀ x ∈ sortedDedup (initial_image_positions
        (choose_sp (split_markdown_blocks (removeAll imageMarker t.data))) n),
        x < (split_markdown_blocks (removeAll imageMarker t.data)).length := by
      intro x hx
      exact choose_sp_lt _ (initial_image_positions_subset (mem_sortedDedup.mp hx))
    obtain ⟨hQsort, hQlt, hQlen⟩ := fillLoopF_some_inv choose_sp_lt hB
      (choose_sp_not_isEmpty hbne) (n + 1) _ pos1 hinit_sorted hinit_lt hfl
    have hQnd : pos1.Nodup := hQsort.nodup
    have htake_nd : (pos1.take n).Nodup := hQnd.sublist (List.take_sublist n pos1)
    have htake_lt : ∀ x ∈ pos1.take n,
        x < (split_markdown_blocks (removeAll imageMarker t.data)).length :=
      fun x hx => hQlt x (List.mem_of_mem_take hx)
    have htake_len : (pos1.take n).length = n := by
      rw [List.length_take]
      omega
    have hblocks0 : ∀ b ∈ split_markdown_blocks (removeAll imageMarker t.data),
        countSub imageMarker b = 0 := by
      intro b hb
      exact countSub_zero_of_within imageMarker_ne_nil hm
        (split_markdown_blocks_within _ b hb)
    show countSub imageMarker (List.intercalate "\n\n".data _) = n
    rw [show ("\n\n".data : List Char) = ['\n', '\n'] from rfl]
    rw [countSub_intercalate newline_not_mem_imageMarker imageMarker_ne_nil]
    rw [show (split_markdown_blocks (removeAll imageMarker t.data)).enum
        = (split_markdown_blocks (removeAll imageMarker t.data)).enumFrom 0 from rfl]
    rw [flatMap_pieces_sum (pos1.take n) imageMarker_ne_nil _ 0 hblocks0]
    rw [show List.range' 0 (split_markdown_blocks (removeAll imageMarker t.data)).length
        = List.range (split_markdown_blocks (removeAll imageMarker t.data)).length by
      rw [List.range_eq_range']]
    rw [filter_range_contains_length htake_nd htake_lt]
    exact htake_len

theorem snd_mem_of_mem_enumFrom {b : List Char} :
    ∀ (bs : List (List Char)) (k i : ℕ), (i, b) ∈ bs.enumFrom k → b ∈ bs := by
  intro bs
  induction bs with
  | nil => intro k i h; simp at h
  | cons x bs ih =>
    intro k i h
    rcases List.mem_cons.mp h with he | ht
    · rw [Prod.mk.injEq] at he
      exact List.mem_cons.mpr (Or.inl he.2)
    · exact List.mem_cons.mpr (Or.inr (ih (k + 1) i ht))

/-- The text returned by a successful `redistribute_images` run is clean:
removing its markers leaves no residual marker occurrence. -/
theorem redistribute_output_clean (t : String) (n : ℕ) (r : String)
    (hbne : split_markdown_blocks (removeAll imageMarker t.data) ≠ [])
    (hm : countSub imageMarker (removeAll imageMarker t.data) = 0)
    (hr : redistribute_images t n = some r) :
    countSub imageMarker (removeAll imageMarker r.data) = 0 := by
  simp only [redistribute_images] at hr
  rw [if_neg (by simpa [List.isEmpty_iff] using hbne)] at hr
  cases hfl : fillLoopF (choose_sp (split_markdown_blocks (removeAll imageMarker t.data))) n
      (n + 1)
      (sortedDedup (initial_image_positions
        (choose_sp (split_markdown_blocks (removeAll imageMarker t.data))) n)) with
  | none => rw [hfl] at hr; exact absurd hr (by simp)
  | some pos1 =>
    rw [hfl] at hr
    simp only [Option.some.injEq] at hr
    subst hr
    have hblocks0 : ∀ b ∈ split_markdown_blocks (removeAll imageMarker t.data),
        countSub imageMarker b = 0 := by
      intro b hb
      exact countSub_zero_of_within imageMarker_ne_nil hm
        (split_markdown_blocks_within _ b hb)
    show countSub imageMarker (removeAll imageMarker (List.intercalate "\n\n".data _)) = 0
    rw [show ("\n\n".data : List Char) = ['\n', '\n'] from rfl]
    rw [removeAll_intercalate newline_not_mem_imageMarker imageMarker_ne_nil]
    rw [countSub_intercalate newline_not_mem_imageMarker imageMarker_ne_nil]
    apply List.sum_eq_zero
    intro x hx
    rw [List.map_map] at hx
    obtain ⟨piece, hpiece, hpx⟩ := List.mem_map.mp hx
    obtain ⟨ib, hib, hmem⟩ := List.mem_flatMap.mp hpiece
    have hpcases : piece = ib.2 ∨ piece = imageMarker := by
      by_cases hc : (pos1.take n).contains ib.1 = true
      · rw [if_pos hc] at hmem
        rcases List.mem_cons.mp hmem with h | h
        · exact Or.inl h
        · simp at h
          exact Or.inr h
      · rw [if_neg hc] at hmem
        simp at hmem
        exact Or.inl hmem
    have hib2 : ib.2 ∈ split_markdown_blocks (removeAll imageMarker t.data) :=
      snd_mem_of_mem_enumFrom _ 0 ib.1 (by
        rw [show ((ib.1, ib.2) : ℕ × List Char) = ib from rfl]
        simpa [List.enum] using hib)
    rcases hpcases with rfl | rfl
    · rw [← hpx]
      dsimp only [Function.comp]
      rw [removeAll_of_countSub_zero imageMarker_ne_nil _ (hblocks0 _ hib2)]
      exact hblocks0 _ hib2
    · rw [← hpx]
      dsimp only [Function.comp]
      rw [removeAll_self imageMarker_ne_nil]
      exact countSub_nil _

/-- C5: when `redistribute_images` terminates on a text whose marker-stripped
form splits into at least one block and retains no marker occurrence, the
returned text contains exactly `n` markers, and a second terminating
application with the same `n` again returns a text with exactly `n` markers.
(The unconditional claim fails: on the empty text the block list is empty and
the input is returned unchanged with `0` markers — see the counterexample —
and the filling loop need not terminate at all.) -/
theorem C5_marker_count_and_reapplication (t : String) (n : ℕ) (r : String)
    (hn : 1 ≤ n)
    (hbne : split_markdown_blocks (removeAll imageMarker t.data) ≠ [])
    (hm : countSub imageMarker (removeAll imageMarker t.data) = 0)
    (hr : redistribute_images t n = some r) :
    countSub imageMarker r.data = n ∧
      ∀ r' : String, redistribute_images r n = some r' →
        countSub imageMarker r'.data = n := by
  have h1 := redistribute_count_core t n r hbne hm hr
  refine ⟨h1, ?_⟩
  intro r' hr'
  by_cases hb2 : split_markdown_blocks (removeAll imageMarker r.data) = []
  · simp only [redistribute_images] at hr'
    rw [if_pos (by simpa [List.isEmpty_iff] using hb2)] at hr'
    simp only [Option.some.injEq] at hr'
    rw [← hr']
    exact h1
  · exact redistribute_count_core r n r' hb2
      (redistribute_output_clean t n r hbne hm hr) hr'

/-- On the empty text, `redistribute_images` returns the input unchanged with
`0` markers rather than inserting the single requested marker: the claimed
unconditional exact-`n` property is false. -/
theorem C5_counterexample :
    redistribute_images "" 1 = some "" ∧ ¬ countSub imageMarker "".data = 1 := by
  constructor
  · decide
  · decide

theorem C5_witness :
    (1 ≤ 1 ∧ split_markdown_blocks (removeAll imageMarker c5text.data) ≠ [] ∧
      countSub imageMarker (removeAll imageMarker c5text.data) = 0 ∧
      redistribute_images c5text 1 = some c5out) ∧
    countSub imageMarker c5out.data = 1 :=
  ⟨⟨by decide, by decide, by decide, by decide⟩,
    (C5_marker_count_and_reapplication c5text 1 c5out (by decide) (by decide) (by decide)
      (by decide)).1⟩
